import Mathlib

/-!
# kcov ELF parser (`src/parsers/elf-parser.cc`): address-to-line resolution

A shallow embedding of `class ElfInstance`.  `std::string` is a list of
characters, `uint64_t` / `size_t` / `unsigned long` are natural numbers
reduced modulo `2^64` wherever the C++ arithmetic can wrap, and what libelf,
libdw, libc and the file system return is read from an explicit environment
record.  Listener callbacks are recorded as the list of events every
registered listener receives, in call order.  A call that runs into undefined
or exceptional behaviour of the C++ program (a read past a buffer, a read
through `NULL`, `std::out_of_range`) ends in a `Fault`.
-/

namespace Kcov

/-- The C++ `std::string` / a C `char` buffer. -/
abbrev Str := List Char

/-- The string terminator `'\0'`. -/
def NUL : Char := Char.ofNat 0

/-- Number of values of a `uint64_t` (also `size_t` and `unsigned long` on the 64-bit host). -/
def U64 : Nat := 2 ^ 64

/-! ## Segment (`file-parser.hh`) -/

/-- Modelled from the spec: class `Segment` is declared in `file-parser.hh`, which is
not part of the sources at hand.  Spec section 3: a segment is
`{ data, physicalBase, virtualBase, size }`; `physicalBase..physicalBase+size` is the
range a queried address is tested against and
`adjust(addr) = addr - physicalBase + virtualBase`.  The `data` pointer is kept as the
file offset the section bytes start at (`none` for `NULL`). -/
structure Segment where
  data : Option Nat
  paddr : Nat
  vaddr : Nat
  size : Nat
deriving DecidableEq, Repr

/-- Modelled from the spec: `Segment::addressIsWithinSegment`, the containment test
`physicalBase <= addr < physicalBase + size` in `uint64_t` arithmetic. -/
def Segment.addressIsWithinSegment (seg : Segment) (addr : Nat) : Bool :=
  decide (seg.paddr ≤ addr) && decide (addr < (seg.paddr + seg.size) % U64)

/-- Modelled from the spec: `Segment::adjustAddress`,
`adjust(addr) = addr - physicalBase + virtualBase` in `uint64_t` arithmetic. -/
def Segment.adjustAddress (seg : Segment) (addr : Nat) : Nat :=
  (addr + U64 - seg.paddr % U64 + seg.vaddr) % U64

/-- Modelled from the spec: `Segment::getBase`, the base the verifier offset is taken from. -/
def Segment.getBase (seg : Segment) : Nat := seg.paddr

/-! ## The `.rodata` scan for gcda file names (`parseOneElf`, lines 529-559) -/

/-- The literal `"gcda\0"` handed to `memcmp`. -/
def gcdaMarker : Str := [Char.ofNat 103, Char.ofNat 99, Char.ofNat 100, Char.ofNat 97, NUL]

/-- The loop bound `data->d_size - 5`, a `size_t` subtraction. -/
def scanBound (d_size : Nat) : Nat := (d_size % U64 + U64 - 5) % U64

/-- The walk `while (gcda != dataPtr && *gcda != '\0') gcda--;` started at index `k`:
the index it stops at. -/
def rewind (buf : Str) : Nat → Nat
  | 0 => 0
  | k + 1 => if buf.getD (k + 1) NUL = NUL then k + 1 else rewind buf k

/-- The `std::string(const char *)` constructor: the bytes from index `k` up to the next
terminator. -/
def cstrAt (buf : Str) (k : Nat) : Str := (buf.drop k).takeWhile (fun c => c != NUL)

/-- What the scan of one `.rodata` buffer did: the offsets `memcmp` was run at, the file
names pushed to `gcdaFiles` (one coverage-data file event each), and, when a `memcmp`
reads past the end of the buffer, the offset of that comparison (the scan is cut there:
the behaviour of the C++ program is undefined from that read on). -/
structure ScanResult where
  compared : List Nat
  files : List Str
  fault : Option Nat
deriving DecidableEq, Repr

/-- The loop `for (size_t i = 0; i < data->d_size - 5; i++)`.  `p` is the pointer
`&dataPtr[i]`, i.e. the bytes of the buffer from offset `i` on; `memcmp(p, "gcda\0", 5)`
reads `p[0..4]`. -/
def scanLoop (buf : Str) (bound : Nat) : Nat → Str → ScanResult → ScanResult
  | i, [], r => if i < bound then { r with fault := some i } else r
  | i, c :: p, r =>
    if i < bound then
      if (c :: p).length < 5 then { r with fault := some i }
      else
        let r1 := { r with compared := r.compared ++ [i] }
        if (c :: p).take 5 = gcdaMarker then
          let j := rewind buf i
          if j = 0 then scanLoop buf bound (i + 1) p r1
          else scanLoop buf bound (i + 1) p { r1 with files := r1.files ++ [cstrAt buf (j + 1)] }
        else scanLoop buf bound (i + 1) p r1
    else r

/-- The gcda scan of a `.rodata` buffer (`d_buf` non-null, `d_size = buf.length`). -/
def gcdaScan (buf : Str) : ScanResult :=
  scanLoop buf (scanBound buf.length) 0 buf ⟨[], [], none⟩

/-! ## Events, environment and parser state -/

/-- Modelled from the spec: the file kinds of `IFileParser` (`FLG_NONE` for the main
binary, `FLG_TYPE_SOLIB`, `FLG_TYPE_COVERAGE_DATA`), declared in `file-parser.hh`. -/
inductive FileFlag
  | FLG_NONE
  | FLG_TYPE_SOLIB
  | FLG_TYPE_COVERAGE_DATA
deriving DecidableEq, Repr

/-- The argument of `IFileListener::onFile`: `File(path, flags, segments)`. -/
structure FileEvent where
  path : Str
  flags : FileFlag
  segments : List Segment
deriving DecidableEq, Repr

/-- The arguments of `ILineListener::onLine(file, lineNr, addr)`. -/
structure LineEvent where
  file : Str
  line : Int
  addr : Nat
deriving DecidableEq, Repr

/-- One `struct phdr_data_segment` of the host-supplied `phdr_data_entry`. -/
structure PhdrSegment where
  paddr : Nat
  vaddr : Nat
  size : Nat
deriving DecidableEq, Repr

/-- One section as `parseOneElf` sees it: the header fields read through
`elf32_getshdr` / `elf64_getshdr`, the name from `elf_strptr`, and `elf_getdata`:
`data = none` when `elf_getdata` returns `NULL`, `data = some none` when `d_buf` is
`NULL`, `data = some (some buf)` otherwise (`d_size = buf.length`). -/
structure Section where
  sh_type : Nat
  sh_addr : Nat
  sh_size : Nat
  sh_flags : Nat
  sh_offset : Nat
  name : Str
  data : Option (Option Str)
deriving DecidableEq, Repr

/-- What libelf reports for one file.  The `Bool` argument of `e_type`, `checksum` and
`sections` is `m_elfIs32Bit`: it selects the `elf32_*` or the `elf64_*` accessor. -/
structure ElfImage where
  kind_none : Bool
  ident : Option (List Nat)
  e_type : Bool → Nat
  checksum : Bool → Nat
  shstrndx_ok : Bool
  sections : Bool → List Section

/-- One row of a line table: `dwarf_lineno`, `dwarf_linesrc`,
`dwarf_linebeginstatement`, `dwarf_lineaddr`. -/
structure DwarfLine where
  line_nr : Int
  line_source : Str
  is_code : Bool
  addr : Nat
deriving DecidableEq, Repr

/-- One compile unit as the loop over `dwarf_nextcu` sees it.  `die_ok`: `dwarf_offdie`
found the unit; `lines`: `dwarf_getsrclines` (`none` on failure), a row being `none` when
one of its accessors fails; `files_ok`: `dwarf_getsrcfiles`; `src_dirs`:
`dwarf_getsrcdirs` (`none` on failure), an entry being `none` for a `NULL` pointer. -/
structure CompileUnit where
  die_ok : Bool
  lines : Option (List (Option DwarfLine))
  files_ok : Bool
  src_dirs : Option (List (Option Str))
deriving DecidableEq, Repr

/-- One `GcnoParser::BasicBlockMapping`. -/
structure BasicBlockMapping where
  m_file : Str
  m_line : Int
  m_function : Int
  m_basicBlock : Int
  m_index : Int
deriving DecidableEq, Repr

/-- Everything outside `elf-parser.cc` the parser consults: configuration keys, the file
system, libelf, libdw, and the helpers of `utils.hh`, `gcov.hh` and
`address-verifier.hh`, none of which is part of the sources at hand.  It is fixed while
the file system is unmodified. -/
structure Env where
  -- Configuration key `orig-path-prefix`.
  orig_path_prefix : Str
  -- Configuration key `new-path-prefix`.
  new_path_prefix : Str
  -- Configuration key `verify`.
  verify : Int
  -- Configuration key `gcov`.
  gcov : Int
  -- Whether `::open(path, O_RDONLY, 0)` returns a descriptor.
  open_ok : Str → Bool
  -- Whether `lstat(path)` succeeds.
  lstat_ok : Str → Bool
  -- The handle `elf_begin` gives on the descriptor of `path`.
  elf_begin : Str → Option ElfImage
  -- The handle `elf_memory(read_file(path))` gives, `none` when either step fails.
  elf_memory : Str → Option ElfImage
  -- The compile units `dwarf_begin` gives on the descriptor of `path`.
  dwarf_begin : Str → Option (List CompileUnit)
  -- The libc `dirname`.
  dirname : Str → Str
  -- The libc `realpath`, `none` for `NULL`.
  realpath : Str → Option Str
  -- The helper `get_real_path` of `utils.hh`.
  get_real_path : Str → Str
  -- The helper `dir_concat` of `utils.hh`.
  dir_concat : Str → Str → Str
  -- The helper `file_exists` of `utils.hh`.
  file_exists : Str → Bool
  -- Reading and parsing a gcno file: `none` when `read_file` fails, `some none` when
  -- `GcnoParser::parse` fails, else the basic blocks.
  gcno : Str → Option (Option (List BasicBlockMapping))
  -- The helper `gcovGetAddress` of `gcov.hh`.
  gcovGetAddress : Str → Int → Int → Int → Nat
  -- The capability `IAddressVerifier::verify(data, size, offset)`, set up by
  -- `parseOneElf` on the header of the file named by the first argument.
  verifyAddress : Str → Option Nat → Nat → Nat → Bool

/-- The data members of `ElfInstance` (the libelf handle, the verifier object, the
listener lists and the unused filter are left out). -/
structure ElfInstance where
  m_curSegments : List Segment
  m_executableSegments : List Segment
  m_gcnoFiles : List Str
  m_verifyAddresses : Bool
  m_elfIs32Bit : Bool
  m_elfIsShared : Bool
  m_filename : Str
  m_buildId : Str
  m_debuglink : Str
  m_isMainFile : Bool
  m_checksum : Nat
  m_initialized : Bool
  m_origRoot : Str
  m_newRoot : Str
deriving DecidableEq, Repr

/-- The constructor `ElfInstance::ElfInstance()`. -/
def ElfInstance.new : ElfInstance where
  m_curSegments := []
  m_executableSegments := []
  m_gcnoFiles := []
  m_verifyAddresses := false
  m_elfIs32Bit := true
  m_elfIsShared := false
  m_filename := []
  m_buildId := []
  m_debuglink := []
  m_isMainFile := true
  m_checksum := 0
  m_initialized := false
  m_origRoot := []
  m_newRoot := []

/-- Undefined or exceptional behaviour of the C++ program that ends a call. -/
inductive Fault
  -- a read past the end of a buffer
  | outOfBoundsRead
  -- a read through a NULL pointer
  | nullPointer
  -- the exception std::out_of_range thrown by std::string::substr
  | outOfRange
deriving DecidableEq, Repr

deriving instance DecidableEq for Except

/-- The index `EI_CLASS` of the class byte in `e_ident`. -/
def EI_CLASS : Nat := 4
/-- The identification value `ELFCLASS32`. -/
def ELFCLASS32 : Nat := 1
/-- The object type `ET_DYN`. -/
def ET_DYN : Nat := 3
/-- The section type `SHT_NOTE`. -/
def SHT_NOTE : Nat := 7
/-- The note type `NT_GNU_BUILD_ID`. -/
def NT_GNU_BUILD_ID : Nat := 3
/-- The section flag `SHF_ALLOC`. -/
def SHF_ALLOC : Nat := 2
/-- The section flag `SHF_EXECINSTR`. -/
def SHF_EXECINSTR : Nat := 4

/-! ## `checkFile` and `addFile` -/

/-- The method `ElfInstance::checkFile`: the return value and the state.  The capability
toggle `handle-solibs` is process-wide state outside the parser and is not recorded; the
header accessors are taken to return a header. -/
def checkFile (env : Env) (s : ElfInstance) : Bool × ElfInstance :=
  if !env.open_ok s.m_filename then (false, s)
  else
    match env.elf_begin s.m_filename with
    | none => (false, s)
    | some elf =>
      let out := !elf.kind_none
      if s.m_isMainFile then
        let s1 :=
          match elf.ident with
          | some raw =>
            if raw.length > EI_CLASS then
              { s with m_elfIs32Bit := decide (raw.getD EI_CLASS 0 = ELFCLASS32) }
            else s
          | none => s
        let e_type := elf.e_type s1.m_elfIs32Bit
        let s2 := { s1 with m_elfIsShared := decide (e_type = ET_DYN) }
        let s3 :=
          if s2.m_checksum = 0 then { s2 with m_checksum := elf.checksum s2.m_elfIs32Bit }
          else s2
        (out, s3)
      else (out, s)

/-- The result of `addFile`: return value, state, and the file events sent. -/
structure AddFileOut where
  ret : Bool
  st : ElfInstance
  files : List FileEvent
deriving DecidableEq, Repr

/-- The loop at lines 118-122: the Current Segments built from the host-supplied
`phdr_data_entry`, none for a `NULL` pointer. -/
def hostSegments (data : Option (List PhdrSegment)) : List Segment :=
  match data with
  | some segs => segs.map (fun seg => Segment.mk none seg.paddr seg.vaddr seg.size)
  | none => []

/-- The first part of `addFile` (lines 99-122): the configuration is read on the first
call, then the file name is stored and the per-file fields are reset; `data = none` is
the `NULL` pointer. -/
def addFilePrepared (env : Env) (s : ElfInstance) (filename : Str)
    (data : Option (List PhdrSegment)) : ElfInstance :=
  let s1 :=
    if !s.m_initialized then
      { s with
        m_origRoot := env.orig_path_prefix
        m_newRoot := env.new_path_prefix
        m_verifyAddresses := decide (env.verify ≠ 0)
        m_initialized := true }
    else s
  { s1 with
    m_filename := filename
    m_buildId := []
    m_debuglink := []
    m_curSegments := hostSegments data
    m_executableSegments := [] }

/-- The method `ElfInstance::addFile(filename, data)`. -/
def addFile (env : Env) (s : ElfInstance) (filename : Str)
    (data : Option (List PhdrSegment)) : AddFileOut :=
  let r := checkFile env (addFilePrepared env s filename data)
  if !r.1 then ⟨false, r.2, []⟩
  else
    ⟨true, r.2,
      [⟨r.2.m_filename,
        if r.2.m_isMainFile then FileFlag.FLG_NONE else FileFlag.FLG_TYPE_SOLIB,
        r.2.m_curSegments⟩]⟩

/-! ## `parseOneElf` -/

/-- Reading a C string that starts at the head of `p` (the rest of a buffer): the
characters before the first terminator, a fault when the buffer ends first. -/
def cstrRead : Str → Except Fault Str
  | [] => .error .outOfBoundsRead
  | c :: p => if c = NUL then .ok [] else (cstrRead p).map (fun r => c :: r)

/-- The test `strcmp(p, lit) == 0` for a literal `lit` without inner terminator, `p`
being the rest of a buffer; a fault when `strcmp` runs past the end of the buffer. -/
def strcmpEq : Str → Str → Except Fault Bool
  | [], _ => .error .outOfBoundsRead
  | c :: _, [] => .ok (c = NUL)
  | c :: p, l :: lit => if c = l then strcmpEq p lit else .ok false

/-- A 32-bit word of a note header at byte offset `off` (little-endian host). -/
def word32 (buf : Str) (off : Nat) : Nat :=
  (buf.getD off NUL).toNat + 256 * (buf.getD (off + 1) NUL).toNat
    + 65536 * (buf.getD (off + 2) NUL).toNat + 16777216 * (buf.getD (off + 3) NUL).toNat

/-- The table `hex_digits[n]` for `n < 16`. -/
def hexDigit (n : Nat) : Char := "0123456789abcdef".toList.getD n NUL

/-- The loop `for (i = 0; i < n_descsz; i++)` pushing two hex digits per byte of
`build_id`. -/
def hexEncode : Nat → Str → Except Fault Str
  | 0, _ => .ok []
  | _ + 1, [] => .error .outOfBoundsRead
  | n + 1, b :: rest =>
    (hexEncode n rest).map
      (fun r => hexDigit ((b.toNat / 16) % 16) :: hexDigit (b.toNat % 16) :: r)

/-- The note block of `parseOneElf` on a non-null `d_buf`: the characters appended to
`m_buildId`.  `Elf32_Nhdr` and `Elf64_Nhdr` are both three 32-bit words. -/
def noteBuildId (buf : Str) : Except Fault Str :=
  if buf.length < 12 then .error .outOfBoundsRead
  else
    let n_namesz := word32 buf 0
    let n_descsz := word32 buf 4
    let n_type := word32 buf 8
    let n_data := buf.drop 12
    match strcmpEq n_data "GNU".toList with
    | .error f => .error f
    | .ok false => .ok []
    | .ok true =>
      if n_type = NT_GNU_BUILD_ID then hexEncode n_descsz (n_data.drop n_namesz)
      else .ok []

/-- The loop-carried data of the section loop of `parseOneElf`. -/
structure ElfScan where
  st : ElfInstance
  gcdaFiles : List Str
  files : List FileEvent

/-- The coverage-data file events sent for the file names a scan found. -/
def gcdaEvents (names : List Str) : List FileEvent :=
  names.map (fun f => FileEvent.mk f FileFlag.FLG_TYPE_COVERAGE_DATA [])

/-- The gcda block of the section loop (lines 529-559). -/
def gcdaBlock (doScanForGcda : Bool) (sec : Section) (d_buf : Option Str) (a : ElfScan) :
    Except Fault ElfScan :=
  match d_buf with
  | some buf =>
    if doScanForGcda && decide (sec.name = ".rodata".toList) then
      let r := gcdaScan buf
      match r.fault with
      | some _ => .error .outOfBoundsRead
      | none =>
        .ok { a with gcdaFiles := a.gcdaFiles ++ r.files, files := a.files ++ gcdaEvents r.files }
    else .ok a
  | none => .ok a

/-- The note block of the section loop (lines 561-589). -/
def noteBlock (sec : Section) (d_buf : Option Str) (a : ElfScan) : Except Fault ElfScan :=
  match d_buf with
  | some buf =>
    if sec.sh_type = SHT_NOTE then
      match noteBuildId buf with
      | .error f => .error f
      | .ok hex => .ok { a with st := { a.st with m_buildId := a.st.m_buildId ++ hex } }
    else .ok a
  | none => .ok a

/-- The debug-link block of the section loop (lines 591-593). -/
def debuglinkBlock (sec : Section) (d_buf : Option Str) (a : ElfScan) : Except Fault ElfScan :=
  if sec.name = ".gnu_debuglink".toList then
    match d_buf with
    | none => .error .nullPointer
    | some buf =>
      match cstrRead buf with
      | .error f => .error f
      | .ok link => .ok { a with st := { a.st with m_debuglink := a.st.m_debuglink ++ link } }
  else .ok a

/-- The segment block of the section loop (lines 595-602). -/
def segmentBlock (setupSegments : Bool) (sec : Section) (a : ElfScan) : ElfScan :=
  if sec.sh_flags &&& (SHF_EXECINSTR ||| SHF_ALLOC) ≠ (SHF_EXECINSTR ||| SHF_ALLOC) then a
  else
    let seg : Segment := ⟨some sec.sh_offset, sec.sh_addr, sec.sh_addr, sec.sh_size⟩
    let st1 :=
      if setupSegments then { a.st with m_curSegments := a.st.m_curSegments ++ [seg] }
      else a.st
    { a with st := { st1 with m_executableSegments := st1.m_executableSegments ++ [seg] } }

/-- The loop `while ((scn = elf_nextscn(m_elf, scn)) != NULL)`.  The flag of the result
is `false` when the loop was left through `goto out_elf_begin`. -/
def sectionLoop (doScanForGcda setupSegments : Bool) :
    List Section → ElfScan → Except Fault (Bool × ElfScan)
  | [], a => .ok (true, a)
  | sec :: rest, a =>
    match sec.data with
    | none => .ok (false, a)
    | some d_buf =>
      match gcdaBlock doScanForGcda sec d_buf a with
      | .error f => .error f
      | .ok a1 =>
        match noteBlock sec d_buf a1 with
        | .error f => .error f
        | .ok a2 =>
          match debuglinkBlock sec d_buf a2 with
          | .error f => .error f
          | .ok a3 => sectionLoop doScanForGcda setupSegments rest (segmentBlock setupSegments sec a3)

/-- The substitution `.gcda -> .gcno`: `gcno[sz - 2] = 'n'; gcno[sz - 1] = 'o'`. -/
def gcnoName (gcda : Str) : Str :=
  (gcda.set (gcda.length - 2) 'n').set (gcda.length - 1) 'o'

/-- The loop over `gcdaFiles` at lines 605-618: the names pushed to `m_gcnoFiles`. -/
def gcnoFound (env : Env) (gcdaFiles : List Str) : List Str :=
  (gcdaFiles.map gcnoName).filter env.file_exists

/-- The result of `parseOneElf`: return value, state, and the file events sent. -/
structure ElfOut where
  ret : Bool
  st : ElfInstance
  files : List FileEvent
deriving DecidableEq, Repr

/-- The method `ElfInstance::parseOneElf`. -/
def parseOneElf (env : Env) (s : ElfInstance) : Except Fault ElfOut :=
  match env.elf_memory s.m_filename with
  | none => .ok ⟨false, s, []⟩
  | some elf =>
    if !elf.shstrndx_ok then .ok ⟨false, s, []⟩
    else
      let doScanForGcda := decide (env.gcov ≠ 0)
      let setupSegments := decide (s.m_curSegments.length = 0)
      match sectionLoop doScanForGcda setupSegments (elf.sections s.m_elfIs32Bit) ⟨s, [], []⟩ with
      | .error f => .error f
      | .ok (false, a) => .ok ⟨false, a.st, a.files⟩
      | .ok (true, a) =>
        .ok ⟨true,
          { a.st with m_gcnoFiles := a.st.m_gcnoFiles ++ gcnoFound env a.gcdaFiles },
          a.files⟩

/-! ## Address checks (lines 643-680) -/

/-- The loop of `addressIsValid` over `m_executableSegments`: the first segment holding
the address decides. -/
def addressIsValidIn (env : Env) (filename : Str) (verifyAddresses : Bool) :
    List Segment → Nat → Bool
  | [], _ => false
  | seg :: rest, addr =>
    if seg.addressIsWithinSegment addr then
      if verifyAddresses then
        env.verifyAddress filename seg.data seg.size
          ((addr + U64 - seg.getBase % U64) % U64)
      else true
    else addressIsValidIn env filename verifyAddresses rest addr

/-- The method `ElfInstance::addressIsValid`. -/
def addressIsValid (env : Env) (s : ElfInstance) (addr : Nat) : Bool :=
  addressIsValidIn env s.m_filename s.m_verifyAddresses s.m_executableSegments addr

/-- The loop of `adjustAddressBySegment` over `m_curSegments`. -/
def adjustAddressIn : List Segment → Nat → Nat
  | [], addr => addr
  | seg :: rest, addr =>
    if seg.addressIsWithinSegment addr then seg.adjustAddress addr
    else adjustAddressIn rest addr

/-- The method `ElfInstance::adjustAddressBySegment`. -/
def adjustAddressBySegment (s : ElfInstance) (addr : Nat) : Nat :=
  adjustAddressIn s.m_curSegments addr

/-! ## `parseOneDwarf` and `open_debuglink_file` -/

/-- The call `std::string::find(needle)`: the first index at which `needle` occurs,
`none` for `npos`. -/
def strFind : Str → Str → Option Nat
  | [], needle => if needle = [] then some 0 else none
  | c :: hay, needle =>
    if needle.isPrefixOf (c :: hay) then some 0
    else (strFind hay needle).map (fun k => k + 1)

/-- The call `std::string::replace(pos, len, r)`. -/
def strReplace (str : Str) (pos len : Nat) (r : Str) : Str :=
  str.take pos ++ r ++ str.drop (pos + len)

/-- The path of one row before the remap (lines 404-414): the recorded path if it
starts with a slash, else the recorded path joined to the compilation directory
`src_dirs[0]`. -/
def resolvedPath (env : Env) (src_dir0 : Option Str) (line_source : Str) : Str :=
  let dir : Str := src_dir0.getD []
  let full_file_path := env.dir_concat dir line_source
  if line_source.head? ≠ some '/' then full_file_path else line_source

/-- The path resolution of one row (lines 403-434): the file handed to `onLine`.
`src_dir0` is `src_dirs[0]`. -/
def resolveFile (env : Env) (s : ElfInstance) (src_dir0 : Option Str) (line_source : Str) : Str :=
  let file_path := resolvedPath env src_dir0 line_source
  let rp : Str :=
    if s.m_origRoot.length > 0 ∧ s.m_newRoot.length > 0 then
      match strFind file_path s.m_origRoot with
      | some dwIndex =>
        env.get_real_path (strReplace file_path dwIndex s.m_origRoot.length s.m_newRoot)
      | none => []
    else env.get_real_path file_path
  if rp ≠ [] then rp else file_path

/-- The body of the row loop for one readable row (lines 402-440): the line event sent,
if any. -/
def rowEvent (env : Env) (s : ElfInstance) (relocation : Nat) (src_dir0 : Option Str)
    (l : DwarfLine) : Option LineEvent :=
  if l.line_nr ≠ 0 ∧ l.is_code = true then
    if !addressIsValid env s l.addr then none
    else
      some ⟨resolveFile env s src_dir0 l.line_source, l.line_nr,
        (adjustAddressBySegment s l.addr + relocation) % U64⟩
  else none

/-- The loop `for (i = 0; i < line_count; i++)`: the events sent, and whether the loop
was left through `goto out_err`. -/
def lineLoop (env : Env) (s : ElfInstance) (relocation : Nat) (src_dir0 : Option Str) :
    List (Option DwarfLine) → List LineEvent × Bool
  | [] => ([], false)
  | none :: _ => ([], true)
  | some l :: rest =>
    ((rowEvent env s relocation src_dir0 l).toList
        ++ (lineLoop env s relocation src_dir0 rest).1,
      (lineLoop env s relocation src_dir0 rest).2)

/-- The loop `while (dwarf_nextcu(...) == 0)` over the compile units (lines 350-442):
the line events sent.  `dwarf_end` is taken to succeed. -/
def cuLoop (env : Env) (s : ElfInstance) (relocation : Nat) : List CompileUnit → List LineEvent
  | [] => []
  | cu :: rest =>
    if !cu.die_ok then []
    else
      match cu.lines with
      | none => cuLoop env s relocation rest
      | some lines =>
        if !cu.files_ok then cuLoop env s relocation rest
        else
          match cu.src_dirs with
          | none => cuLoop env s relocation rest
          | some src_dirs =>
            if src_dirs.length = 0 then cuLoop env s relocation rest
            else
              let r := lineLoop env s relocation (src_dirs.head?.getD none) lines
              if r.2 then r.1 else r.1 ++ cuLoop env s relocation rest

/-- The method `ElfInstance::open_debuglink_file`: the path whose descriptor is returned
(`none` for `-1`) and the paths handed to `::open`, in call order. -/
def open_debuglink_file (env : Env) (s : ElfInstance) : Option Str × List Str :=
  let file_path := env.dirname s.m_filename ++ ['/']
  let c1 := file_path ++ s.m_debuglink
  if env.open_ok c1 then (some c1, [c1])
  else
    let c2 := file_path ++ ".debug/".toList ++ s.m_debuglink
    if env.open_ok c2 then (some c2, [c1, c2])
    else
      match env.realpath file_path with
      | none => (none, [c1, c2])
      | some real_path =>
        let c3 := "/usr/lib/debug".toList ++ real_path ++ ['/'] ++ s.m_debuglink
        (if env.open_ok c3 then some c3 else none, [c1, c2, c3])

/-- The name of the build-id debug file (lines 311-315), for `m_buildId` of length at
least 2. -/
def buildIdFile (buildId : Str) : Str :=
  "/usr/lib/debug/.build-id/".toList ++ buildId.take 2 ++ ['/'] ++ buildId.drop 2
    ++ ".debug".toList

/-- The debug handle and the paths handed to `::open` so far. -/
structure DbgState where
  dbg : Option (List CompileUnit)
  opens : List Str

/-- The build-id block (lines 308-326).  `substr(2, npos)` throws `std::out_of_range` on
a string shorter than 2. -/
def buildIdBlock (env : Env) (s : ElfInstance) (d : DbgState) : Except Fault DbgState :=
  if d.dbg.isNone && decide (s.m_buildId.length > 0) then
    if s.m_buildId.length < 2 then .error .outOfRange
    else
      let debug_file := buildIdFile s.m_buildId
      if env.open_ok debug_file then
        .ok ⟨env.dwarf_begin debug_file, d.opens ++ [debug_file]⟩
      else .ok ⟨d.dbg, d.opens ++ [debug_file]⟩
  else .ok d

/-- The debug-link block (lines 328-339). -/
def debuglinkOpen (env : Env) (s : ElfInstance) (d : DbgState) : DbgState :=
  if d.dbg.isNone && decide (s.m_debuglink.length > 0) then
    match (open_debuglink_file env s).1 with
    | none => ⟨d.dbg, d.opens ++ (open_debuglink_file env s).2⟩
    | some path => ⟨env.dwarf_begin path, d.opens ++ (open_debuglink_file env s).2⟩
  else d

/-- The result of `parseOneDwarf`: return value, the line events sent, and the paths
handed to `::open`, in call order. -/
structure DwarfOut where
  ret : Bool
  lines : List LineEvent
  opens : List Str
deriving DecidableEq, Repr

/-- The method `ElfInstance::parseOneDwarf(relocation)`. -/
def parseOneDwarf (env : Env) (s : ElfInstance) (relocation : Nat) : Except Fault DwarfOut :=
  if !env.open_ok s.m_filename then .ok ⟨false, [], [s.m_filename]⟩
  else
    match buildIdBlock env s ⟨env.dwarf_begin s.m_filename, [s.m_filename]⟩ with
    | .error f => .error f
    | .ok d1 =>
      let d2 := debuglinkOpen env s d1
      match d2.dbg with
      | none => .ok ⟨false, [], d2.opens⟩
      | some cus => .ok ⟨true, cuLoop env s relocation cus, d2.opens⟩

/-! ## `parseGcnoFiles`, `doParse`, `parse`, `setMainFileRelocation` -/

/-- The method `ElfInstance::parseOneGcno`: the line events sent. -/
def parseOneGcno (env : Env) (filename : Str) (relocation : Nat) : List LineEvent :=
  match env.gcno filename with
  | none => []
  | some none => []
  | some (some bbs) =>
    bbs.map (fun cur =>
      LineEvent.mk cur.m_file cur.m_line
        ((env.gcovGetAddress cur.m_file cur.m_function cur.m_basicBlock cur.m_index
            + relocation) % U64))

/-- The method `ElfInstance::parseGcnoFiles`: the line events sent. -/
def parseGcnoFiles (env : Env) (s : ElfInstance) (relocation : Nat) : List LineEvent :=
  (s.m_gcnoFiles.map (fun cur => parseOneGcno env cur relocation)).flatten

/-- The result of `doParse`, `parse` and `setMainFileRelocation`: return value, state,
and the line and file events sent. -/
structure ParseOut where
  ret : Bool
  st : ElfInstance
  lines : List LineEvent
  files : List FileEvent
deriving DecidableEq, Repr

/-- The method `ElfInstance::doParse(relocation)`. -/
def doParse (env : Env) (s : ElfInstance) (relocation : Nat) : Except Fault ParseOut :=
  if !env.lstat_ok s.m_filename then .ok ⟨false, s, [], []⟩
  else
    match parseOneElf env s with
    | .error f => .error f
    | .ok e =>
      if decide (env.gcov ≠ 0) && !e.st.m_gcnoFiles.isEmpty then
        .ok ⟨true, e.st, parseGcnoFiles env e.st relocation, e.files⟩
      else
        match parseOneDwarf env e.st relocation with
        | .error f => .error f
        | .ok d => .ok ⟨true, e.st, d.lines, e.files⟩

/-- The method `ElfInstance::parse`. -/
def parse (env : Env) (s : ElfInstance) : Except Fault ParseOut :=
  if s.m_isMainFile && s.m_elfIsShared then .ok ⟨true, s, [], []⟩
  else
    match doParse env s 0 with
    | .error f => .error f
    | .ok r =>
      if !r.ret then .ok ⟨false, r.st, r.lines, r.files⟩
      else .ok ⟨true, { r.st with m_isMainFile := false }, r.lines, r.files⟩

/-- The method `ElfInstance::setMainFileRelocation(relocation)`. -/
def setMainFileRelocation (env : Env) (s : ElfInstance) (relocation : Nat) :
    Except Fault ParseOut :=
  if !s.m_isMainFile then .ok ⟨false, s, [], []⟩
  else if s.m_elfIsShared then
    match doParse env s relocation with
    | .error f => .error f
    | .ok r =>
      if !r.ret then .ok ⟨false, r.st, r.lines, r.files⟩
      else .ok ⟨true, r.st, r.lines, r.files⟩
  else .ok ⟨true, s, [], []⟩

/-! ## Definitions used in the statements -/

/-- Adding `bias` to the address of a line event, in `uint64_t` arithmetic. -/
def LineEvent.shift (bias : Nat) (e : LineEvent) : LineEvent :=
  { e with addr := (e.addr + bias) % U64 }

/-- The result of a scan with every line-event address increased by `bias`. -/
def ParseOut.shift (bias : Nat) (r : ParseOut) : ParseOut :=
  { r with lines := r.lines.map (LineEvent.shift bias) }

/-! ## Concrete files and environments -/

/-- An environment in which no file exists; `get_real_path` returns its argument and
`dir_concat` joins with a slash. -/
def emptyEnv : Env where
  orig_path_prefix := []
  new_path_prefix := []
  verify := 0
  gcov := 0
  open_ok := fun _ => false
  lstat_ok := fun _ => false
  elf_begin := fun _ => none
  elf_memory := fun _ => none
  dwarf_begin := fun _ => none
  dirname := fun _ => ['.']
  realpath := fun _ => none
  get_real_path := fun p => p
  dir_concat := fun d f => if d = [] then f else d ++ ['/'] ++ f
  file_exists := fun _ => false
  gcno := fun _ => none
  gcovGetAddress := fun _ _ _ _ => 0
  verifyAddress := fun _ _ _ _ => true

/-- A 64-bit ELF image with object type `e_type` and the given sections. -/
def image64 (e_type : Nat) (sections : List Section) : ElfImage where
  kind_none := false
  ident := some [127, 69, 76, 70, 2]
  e_type := fun _ => e_type
  checksum := fun _ => 1
  shstrndx_ok := true
  sections := fun _ => sections

/-- An allocated executable section `.text` at address `addr` of `size` bytes. -/
def textSection (addr size : Nat) : Section :=
  ⟨1, addr, size, SHF_ALLOC ||| SHF_EXECINSTR, 64, ".text".toList, some (some [])⟩

/-- A compile unit with compilation directory `/src` and the given rows. -/
def unitOf (rows : List DwarfLine) : CompileUnit :=
  ⟨true, some (rows.map some), true, some [some "/src".toList]⟩

/-- The ELF image of each file of the example file system: a fixed-address executable
`/bin/app`, a position-independent executable `/bin/pie` and a shared object
`/lib/libfoo.so`. -/
def worldImage (path : Str) : Option ElfImage :=
  if path = "/bin/app".toList then some (image64 2 [textSection 0x401000 0x100])
  else if path = "/bin/pie".toList then some (image64 ET_DYN [textSection 0x1000 0x100])
  else if path = "/lib/libfoo.so".toList then some (image64 ET_DYN [textSection 0x1000 0x100])
  else none

/-- The inline debug information of each file of the example file system. -/
def worldDwarf (path : Str) : Option (List CompileUnit) :=
  if path = "/bin/app".toList then some [unitOf [⟨5, "/src/app.c".toList, true, 0x401010⟩]]
  else if path = "/bin/pie".toList then some [unitOf [⟨7, "/src/main.c".toList, true, 0x1010⟩]]
  else if path = "/lib/libfoo.so".toList then
    some [unitOf [⟨3, "/src/foo.c".toList, true, 0x1020⟩]]
  else none

/-- The example file system, with coverage-graph mode off and no path remap. -/
def worldEnv : Env :=
  { emptyEnv with
    open_ok := fun p => (worldImage p).isSome
    lstat_ok := fun p => (worldImage p).isSome
    elf_begin := worldImage
    elf_memory := worldImage
    dwarf_begin := worldDwarf }

/-- The parser state after `addFile(path, data)` on state `s` in the example file
system. -/
def registered (s : ElfInstance) (path : Str) (data : Option (List PhdrSegment)) : ElfInstance :=
  (addFile worldEnv s path data).st

/-- The state of a call result, the input state when the call faults. -/
def stateAfter (s : ElfInstance) (r : Except Fault ParseOut) : ElfInstance :=
  match r with
  | .ok out => out.st
  | .error _ => s

/-- The line events of a call result, none when the call faults. -/
def linesOf (r : Except Fault ParseOut) : List LineEvent :=
  match r with
  | .ok out => out.lines
  | .error _ => []

/-- The example file system in coverage-graph mode: `/bin/app` carries a `.rodata`
section naming `/t/a.gcda`, and the graph file `/t/a.gcno` exists with one basic block. -/
def gcovEnv : Env :=
  { emptyEnv with
    gcov := 1
    open_ok := fun p => decide (p = "/bin/app".toList)
    lstat_ok := fun p => decide (p = "/bin/app".toList)
    elf_begin := fun p =>
      if p = "/bin/app".toList then
        some (image64 2 [textSection 0x401000 0x100,
          ⟨1, 0x402000, 14, SHF_ALLOC, 320, ".rodata".toList,
            some (some ([Char.ofNat 120, NUL] ++ "/t/a.gcda".toList ++ [NUL, Char.ofNat 122,
              Char.ofNat 122]))⟩])
      else none
    elf_memory := fun p =>
      if p = "/bin/app".toList then
        some (image64 2 [textSection 0x401000 0x100,
          ⟨1, 0x402000, 14, SHF_ALLOC, 320, ".rodata".toList,
            some (some ([Char.ofNat 120, NUL] ++ "/t/a.gcda".toList ++ [NUL, Char.ofNat 122,
              Char.ofNat 122]))⟩])
      else none
    file_exists := fun p => decide (p = "/t/a.gcno".toList)
    gcno := fun p =>
      if p = "/t/a.gcno".toList then some (some [⟨"/src/a.c".toList, 3, 1, 0, 0⟩]) else none
    gcovGetAddress := fun _ f b i => f.toNat * 65536 + b.toNat * 256 + i.toNat }

/-- A `.rodata` buffer of 9 bytes, `x\0a.gcda\0`: the marker `gcda\0` sits at offset 4
and ends at the last byte of the buffer. -/
def rodataMarkerAtEnd : Str :=
  [Char.ofNat 120, NUL] ++ "a.gcda".toList ++ [NUL]

/-- An image whose only section is a `.rodata` section holding the 4 bytes `gcda`. -/
def shortRodataImage : ElfImage :=
  image64 2 [⟨1, 0x402000, 4, SHF_ALLOC, 320, ".rodata".toList, some (some "gcda".toList)⟩]

/-- The coverage-graph environment with the file `/bin/app` replaced by the image with
the 4-byte `.rodata` section. -/
def shortRodataEnv : Env :=
  { gcovEnv with elf_memory := fun _ => some shortRodataImage }

/-- The state in which the shared object `/lib/libfoo.so` is scanned: the fixed-address
executable `/bin/app` was registered and parsed on a fresh parser, then the shared object
was registered with one host-supplied segment (physical base `0x1000`, virtual base
`0x7f0000001000`, size `0x100`). -/
def libState : ElfInstance :=
  registered
    (stateAfter (registered ElfInstance.new "/bin/app".toList none)
      (parse worldEnv (registered ElfInstance.new "/bin/app".toList none)))
    "/lib/libfoo.so".toList (some [⟨0x1000, 0x7f0000001000, 0x100⟩])

/-- The state in which `/bin/app` is scanned in coverage-graph mode: registered on a
fresh parser. -/
def gcovState : ElfInstance :=
  (addFile gcovEnv ElfInstance.new "/bin/app".toList none).st

/-- The result of `doParse(0x555555554000)` on the position-independent executable
`/bin/pie` registered on a fresh parser (see the witness of the segment theorem). -/
def pieScan : ParseOut where
  ret := true
  st :=
    { m_curSegments := [⟨some 64, 0x1000, 0x1000, 0x100⟩]
      m_executableSegments := [⟨some 64, 0x1000, 0x1000, 0x100⟩]
      m_gcnoFiles := []
      m_verifyAddresses := false
      m_elfIs32Bit := false
      m_elfIsShared := true
      m_filename := "/bin/pie".toList
      m_buildId := []
      m_debuglink := []
      m_isMainFile := true
      m_checksum := 1
      m_initialized := true
      m_origRoot := []
      m_newRoot := [] }
  lines := [⟨"/src/main.c".toList, 7, 0x555555555010⟩]
  files := []

/-- A stripped executable `/opt/app/bin/tool`: a GNU build-id note with the three bytes
`ab cd ef`, a `.gnu_debuglink` section naming `tool.debug`, and a `.text` section. -/
def strippedImage : ElfImage :=
  image64 2
    [⟨SHT_NOTE, 0x400200, 19, SHF_ALLOC, 512, ".note.gnu.build-id".toList,
        some (some ([Char.ofNat 4, NUL, NUL, NUL, Char.ofNat 3, NUL, NUL, NUL,
          Char.ofNat 3, NUL, NUL, NUL] ++ "GNU".toList
          ++ [NUL, Char.ofNat 0xab, Char.ofNat 0xcd, Char.ofNat 0xef]))⟩,
      textSection 0x401000 0x100,
      ⟨1, 0, 16, 0, 4096, ".gnu_debuglink".toList,
        some (some ("tool.debug".toList ++ [NUL, NUL, Char.ofNat 1, Char.ofNat 2,
          Char.ofNat 3, Char.ofNat 4]))⟩]

/-- A file system holding only the stripped executable: no debug file can be opened, and
`realpath` of the directory of the binary fails. -/
def strippedEnv : Env :=
  { emptyEnv with
    open_ok := fun p => decide (p = "/opt/app/bin/tool".toList)
    lstat_ok := fun p => decide (p = "/opt/app/bin/tool".toList)
    elf_begin := fun p => if p = "/opt/app/bin/tool".toList then some strippedImage else none
    elf_memory := fun p => if p = "/opt/app/bin/tool".toList then some strippedImage else none
    dirname := fun _ => "/opt/app/bin".toList
    realpath := fun _ => none }

/-- The same file system when `realpath` of the directory succeeds. -/
def strippedEnvResolved : Env :=
  { strippedEnv with realpath := fun _ => some "/opt/app/bin".toList }

/-- The state in which `parseOneDwarf` runs on the stripped executable: registered on a
fresh parser and scanned by `parseOneElf`. -/
def strippedState : ElfInstance :=
  match parseOneElf strippedEnv (addFile strippedEnv ElfInstance.new "/opt/app/bin/tool".toList none).st with
  | .ok e => e.st
  | .error _ => ElfInstance.new

/-- The example file system with the path remap `/build/src -> /home/user/src`
configured; the line table of `/bin/app` records the path `/build/src/foo.c`. -/
def remapEnv : Env :=
  { worldEnv with
    orig_path_prefix := "/build/src".toList
    new_path_prefix := "/home/user/src".toList
    dwarf_begin := fun p =>
      if p = "/bin/app".toList then
        some [unitOf [⟨12, "/build/src/foo.c".toList, true, 0x401010⟩]]
      else none }

/-- The state in which `parseOneDwarf` runs on `/bin/app` under the remap: registered on
a fresh parser and scanned. -/
def remapState : ElfInstance :=
  stateAfter ElfInstance.new
    (doParse remapEnv (addFile remapEnv ElfInstance.new "/bin/app".toList none).st 0)

/-- The example file system, no remap configured, in which the line table of `/bin/app`
records the absolute path `/src/./app.c` and canonicalization resolves it to
`/src/app.c`. -/
def dotPathEnv : Env :=
  { worldEnv with
    get_real_path := fun p => if p = "/src/./app.c".toList then "/src/app.c".toList else p
    dwarf_begin := fun p =>
      if p = "/bin/app".toList then
        some [unitOf [⟨5, "/src/./app.c".toList, true, 0x401010⟩]]
      else none }

/-- The state in which `parseOneDwarf` runs on `/bin/app` in the example file system:
registered on a fresh parser and scanned. -/
def appState : ElfInstance :=
  stateAfter ElfInstance.new
    (doParse worldEnv (addFile worldEnv ElfInstance.new "/bin/app".toList none).st 0)

/-- The fields of the parser state that `addFile` and `parseOneElf` do not rebuild for a
file: the state with both segment lists, the build-id and the debug-link emptied. -/
def ElfInstance.resetScan (s : ElfInstance) : ElfInstance :=
  { s with m_curSegments := [], m_executableSegments := [], m_buildId := [], m_debuglink := [] }

/-- The parser state with the main-file flag set to `b`. -/
def ElfInstance.setMain (b : Bool) (s : ElfInstance) : ElfInstance :=
  { s with m_isMainFile := b }

/-- The loop-carried data of the section loop with the main-file flag set to `b`. -/
def ElfScan.setMain (b : Bool) (a : ElfScan) : ElfScan :=
  { a with st := a.st.setMain b }

/-- The result of `parseOneElf` with the main-file flag set to `b`. -/
def ElfOut.setMain (b : Bool) (e : ElfOut) : ElfOut :=
  { e with st := e.st.setMain b }

/-- The result of a scan with the main-file flag of its state set to `b`. -/
def ParseOut.setMain (b : Bool) (r : ParseOut) : ParseOut :=
  { r with st := r.st.setMain b }

/-- The result of `parse()` on the fixed-address executable `/bin/app` registered on a
fresh parser in the example file system. -/
def appScan : ParseOut where
  ret := true
  st :=
    { m_curSegments := [⟨some 64, 0x401000, 0x401000, 0x100⟩]
      m_executableSegments := [⟨some 64, 0x401000, 0x401000, 0x100⟩]
      m_gcnoFiles := []
      m_verifyAddresses := false
      m_elfIs32Bit := false
      m_elfIsShared := false
      m_filename := "/bin/app".toList
      m_buildId := []
      m_debuglink := []
      m_isMainFile := false
      m_checksum := 1
      m_initialized := true
      m_origRoot := []
      m_newRoot := [] }
  lines := [⟨"/src/app.c".toList, 5, 0x401010⟩]
  files := []

/-! ## Relocation (`doParse`) -/

theorem shift_addr_mod (a bias : Nat) : ((a + 0) % U64 + bias) % U64 = (a + bias) % U64 := by
  simp [Nat.add_mod]

theorem rowEvent_shift (env : Env) (s : ElfInstance) (bias : Nat) (d : Option Str)
    (l : DwarfLine) :
    rowEvent env s bias d l = (rowEvent env s 0 d l).map (LineEvent.shift bias) := by
  unfold rowEvent
  split
  · split
    · rfl
    · simp [LineEvent.shift, shift_addr_mod]
  · rfl

theorem lineLoop_shift (env : Env) (s : ElfInstance) (bias : Nat) (d : Option Str)
    (rows : List (Option DwarfLine)) :
    lineLoop env s bias d rows
      = (((lineLoop env s 0 d rows).1).map (LineEvent.shift bias),
          (lineLoop env s 0 d rows).2) := by
  induction rows with
  | nil => rfl
  | cons r rest ih =>
    cases r with
    | none => rfl
    | some l =>
      simp only [lineLoop, ih, rowEvent_shift env s bias d l, List.map_append]
      cases rowEvent env s 0 d l <;> rfl

theorem cuLoop_shift (env : Env) (s : ElfInstance) (bias : Nat) (cus : List CompileUnit) :
    cuLoop env s bias cus = (cuLoop env s 0 cus).map (LineEvent.shift bias) := by
  induction cus with
  | nil => rfl
  | cons cu rest ih =>
    simp only [cuLoop]
    split
    · rfl
    · split
      · exact ih
      · split
        · exact ih
        · split
          · exact ih
          · split
            · exact ih
            · rw [lineLoop_shift env s bias]
              simp only []
              split
              · rfl
              · rw [ih, List.map_append]

theorem parseOneDwarf_shift (env : Env) (s : ElfInstance) (bias : Nat) :
    parseOneDwarf env s bias
      = (parseOneDwarf env s 0).map
          (fun d => { d with lines := d.lines.map (LineEvent.shift bias) }) := by
  unfold parseOneDwarf
  split
  · rfl
  · split
    · rfl
    · simp only []
      split
      · rfl
      · rw [cuLoop_shift env s bias]; rfl

theorem parseOneGcno_shift (env : Env) (f : Str) (bias : Nat) :
    parseOneGcno env f bias = (parseOneGcno env f 0).map (LineEvent.shift bias) := by
  unfold parseOneGcno
  split
  · rfl
  · rfl
  · simp [LineEvent.shift, shift_addr_mod]

theorem parseGcnoFiles_shift (env : Env) (s : ElfInstance) (bias : Nat) :
    parseGcnoFiles env s bias = (parseGcnoFiles env s 0).map (LineEvent.shift bias) := by
  unfold parseGcnoFiles
  induction s.m_gcnoFiles with
  | nil => rfl
  | cons f rest ih =>
    simp only [List.map_cons, List.flatten_cons, List.map_append, ih,
      parseOneGcno_shift env f bias]

/-- C2: the scan `doParse(bias)` does what `doParse(0)` does on the same parser state and
environment (same return value, same final state, same file events, the same line events
in the same order with the same file and line number), except that every line-event
address is increased by `bias` in unsigned 64-bit arithmetic. -/
theorem doParse_relocation (env : Env) (s : ElfInstance) (bias : Nat) :
    doParse env s bias = (doParse env s 0).map (ParseOut.shift bias) := by
  unfold doParse
  split
  · rfl
  · split
    · rfl
    · split
      · simp [Except.map, ParseOut.shift, parseGcnoFiles_shift env _ bias]
      · rw [parseOneDwarf_shift env _ bias]
        cases parseOneDwarf env _ 0 <;> rfl

/-! ## The deferred main binary (`parse`, `addFile`, `setMainFileRelocation`) -/

/-- C3: when the image is the main file and position-independent (`m_isMainFile` and
`m_elfIsShared` both set), `parse()` returns success, sends no line event and no file
event, and leaves every field of the parser state, the main-file flag included, as it
was. -/
theorem parse_defers_position_independent_main (env : Env) (s : ElfInstance)
    (hmain : s.m_isMainFile = true) (hshared : s.m_elfIsShared = true) :
    parse env s = .ok ⟨true, s, [], []⟩ := by
  simp [parse, hmain, hshared]

/-- C3 at the state reached by registering the position-independent executable
`/bin/pie` on a fresh parser. -/
theorem parse_defers_position_independent_main_witness :
    (registered ElfInstance.new "/bin/pie".toList none).m_isMainFile = true
      ∧ (registered ElfInstance.new "/bin/pie".toList none).m_elfIsShared = true
      ∧ parse worldEnv (registered ElfInstance.new "/bin/pie".toList none)
          = .ok ⟨true, registered ElfInstance.new "/bin/pie".toList none, [], []⟩ :=
  ⟨by decide, by decide,
    parse_defers_position_independent_main worldEnv _ (by decide) (by decide)⟩

/-- C4 (the code at the failing input): a fresh parser registers the position-independent
executable `/bin/pie` (file event of kind main), `parse()` defers,
`setMainFileRelocation(0x555555554000)` extracts its one line, and the next `addFile`,
of the shared object `/lib/libfoo.so`, again sends a file event of kind main
(`FLG_NONE`), not `FLG_TYPE_SOLIB`: `m_isMainFile` is still set.  After the
fixed-address executable `/bin/app` and `parse()` the same `addFile` sends
`FLG_TYPE_SOLIB`. -/
theorem addFile_after_relocated_main_is_flagged_main :
    (addFile worldEnv ElfInstance.new "/bin/pie".toList none).files.map FileEvent.flags
        = [FileFlag.FLG_NONE]
      ∧ parse worldEnv (registered ElfInstance.new "/bin/pie".toList none)
        = .ok ⟨true, registered ElfInstance.new "/bin/pie".toList none, [], []⟩
      ∧ linesOf (setMainFileRelocation worldEnv
          (registered ElfInstance.new "/bin/pie".toList none) 0x555555554000)
        = [⟨"/src/main.c".toList, 7, 0x555555555010⟩]
      ∧ (stateAfter (registered ElfInstance.new "/bin/pie".toList none)
          (setMainFileRelocation worldEnv
            (registered ElfInstance.new "/bin/pie".toList none) 0x555555554000)).m_isMainFile
        = true
      ∧ (addFile worldEnv
          (stateAfter (registered ElfInstance.new "/bin/pie".toList none)
            (setMainFileRelocation worldEnv
              (registered ElfInstance.new "/bin/pie".toList none) 0x555555554000))
          "/lib/libfoo.so".toList none).files.map FileEvent.flags
        = [FileFlag.FLG_NONE]
      ∧ (addFile worldEnv
          (stateAfter (registered ElfInstance.new "/bin/app".toList none)
            (parse worldEnv (registered ElfInstance.new "/bin/app".toList none)))
          "/lib/libfoo.so".toList none).files.map FileEvent.flags
        = [FileFlag.FLG_TYPE_SOLIB] := by
  refine ⟨?_, ?_, ?_, ?_, ?_, ?_⟩ <;> decide

/-! ## Rescanning -/

/-- C5 (the code at the failing input): in coverage-graph mode, `addFile("/bin/app")`
then `parse()` on a fresh parser sends one line event; `addFile("/bin/app")` then
`parse()` again on the same parser sends that event twice, because `m_gcnoFiles` still
holds `/t/a.gcno` from the first scan and the second scan appends it again. -/
theorem rescan_duplicates_gcno_lines :
    linesOf (parse gcovEnv (addFile gcovEnv ElfInstance.new "/bin/app".toList none).st)
        = [⟨"/src/a.c".toList, 3, 65536⟩]
      ∧ linesOf (parse gcovEnv
          (addFile gcovEnv
            (stateAfter (addFile gcovEnv ElfInstance.new "/bin/app".toList none).st
              (parse gcovEnv (addFile gcovEnv ElfInstance.new "/bin/app".toList none).st))
            "/bin/app".toList none).st)
        = [⟨"/src/a.c".toList, 3, 65536⟩, ⟨"/src/a.c".toList, 3, 65536⟩]
      ∧ (stateAfter (addFile gcovEnv ElfInstance.new "/bin/app".toList none).st
          (parse gcovEnv (addFile gcovEnv ElfInstance.new "/bin/app".toList none).st)).m_gcnoFiles
        = ["/t/a.gcno".toList] := by
  refine ⟨?_, ?_, ?_⟩ <;> decide

/-! ## The `.rodata` scan -/

/-- C6 (the code at the failing input): on a `.rodata` section holding the 4 bytes
`gcda` the loop bound `d_size - 5` wraps to `2^64 - 1`, so the loop body runs at offset 0
and its `memcmp` of 5 bytes reads past the end of the section; `parseOneElf` on an image
with that section ends in this out-of-bounds read. -/
theorem short_rodata_scan_reads_out_of_bounds :
    scanBound 4 = 2 ^ 64 - 1
      ∧ (gcdaScan "gcda".toList).fault = some 0
      ∧ parseOneElf shortRodataEnv
          (addFile gcovEnv ElfInstance.new "/bin/app".toList none).st
        = .error Fault.outOfBoundsRead := by
  refine ⟨?_, ?_, ?_⟩ <;> decide

/-- C10 (the code at the failing input): in the 9-byte buffer `x\0a.gcda\0` the marker
`gcda\0` occurs at offset 4 and ends at the last byte, and the walk back from offset 4
stops at the zero byte at index 1; the scan compares at offsets 0 to 3 only and records no
file name.  With one more byte after the marker the name `a.gcda` is recorded. -/
theorem marker_at_section_end_is_missed :
    rodataMarkerAtEnd.length = 9
      ∧ (rodataMarkerAtEnd.drop 4).take 5 = gcdaMarker
      ∧ rewind rodataMarkerAtEnd 4 = 1
      ∧ gcdaScan rodataMarkerAtEnd = ⟨[0, 1, 2, 3], [], none⟩
      ∧ gcdaScan (rodataMarkerAtEnd ++ [NUL])
        = ⟨[0, 1, 2, 3, 4], ["a.gcda".toList], none⟩ := by
  refine ⟨?_, ?_, ?_, ?_, ?_⟩ <;> decide

/-! ## Line-event addresses and the executable segments -/

theorem U64_pos : 0 < U64 := by unfold U64; norm_num

theorem within_bounds (seg : Segment) (addr : Nat)
    (h : seg.addressIsWithinSegment addr = true) : seg.paddr ≤ addr ∧ addr < U64 := by
  simp only [Segment.addressIsWithinSegment, Bool.and_eq_true, decide_eq_true_eq] at h
  have := Nat.mod_lt (seg.paddr + seg.size) U64_pos
  omega

theorem adjustAddress_same_base (seg : Segment) (addr : Nat) (hv : seg.vaddr = seg.paddr)
    (h : seg.addressIsWithinSegment addr = true) : seg.adjustAddress addr = addr := by
  obtain ⟨h1, h2⟩ := within_bounds seg addr h
  have hp : seg.paddr % U64 = seg.paddr := Nat.mod_eq_of_lt (by omega)
  unfold Segment.adjustAddress
  rw [hv, hp]
  have : addr + U64 - seg.paddr + seg.paddr = addr + U64 := by omega
  rw [this, Nat.add_mod_right, Nat.mod_eq_of_lt h2]

theorem adjustAddressIn_same_base (segs : List Segment) (addr : Nat)
    (hv : ∀ c ∈ segs, c.vaddr = c.paddr) : adjustAddressIn segs addr = addr := by
  induction segs with
  | nil => rfl
  | cons seg rest ih =>
    simp only [adjustAddressIn]
    split
    · next h => exact adjustAddress_same_base seg addr (hv seg (List.mem_cons_self _ _)) h
    · exact ih (fun c hc => hv c (List.mem_cons_of_mem _ hc))

theorem addressIsValidIn_within (env : Env) (f : Str) (v : Bool) (segs : List Segment)
    (addr : Nat) (h : addressIsValidIn env f v segs addr = true) :
    ∃ seg ∈ segs, seg.addressIsWithinSegment addr = true := by
  induction segs with
  | nil => simp [addressIsValidIn] at h
  | cons seg rest ih =>
    simp only [addressIsValidIn] at h
    split at h
    · next hw => exact ⟨seg, List.mem_cons_self _ _, hw⟩
    · obtain ⟨seg', hmem, hw⟩ := ih h
      exact ⟨seg', List.mem_cons_of_mem _ hmem, hw⟩

theorem rowEvent_some (env : Env) (s : ElfInstance) (relocation : Nat) (d : Option Str)
    (l : DwarfLine) (e : LineEvent) (h : rowEvent env s relocation d l = some e) :
    l.line_nr ≠ 0 ∧ l.is_code = true ∧ addressIsValid env s l.addr = true
      ∧ e = ⟨resolveFile env s d l.line_source, l.line_nr,
          (adjustAddressBySegment s l.addr + relocation) % U64⟩ := by
  unfold rowEvent at h
  split at h
  · next hc =>
    split at h
    · exact absurd h (by simp)
    · next hv =>
      simp only [Option.some.injEq] at h
      refine ⟨hc.1, hc.2, ?_, h.symm⟩
      simpa using hv
  · exact absurd h (by simp)

theorem lineLoop_mem (env : Env) (s : ElfInstance) (relocation : Nat) (d : Option Str)
    (rows : List (Option DwarfLine)) (e : LineEvent)
    (h : e ∈ (lineLoop env s relocation d rows).1) :
    ∃ l, some l ∈ rows ∧ rowEvent env s relocation d l = some e := by
  induction rows with
  | nil => simp [lineLoop] at h
  | cons r rest ih =>
    cases r with
    | none => simp [lineLoop] at h
    | some l =>
      simp only [lineLoop, List.mem_append, Option.mem_toList, Option.mem_def] at h
      rcases h with h | h
      · exact ⟨l, List.mem_cons_self _ _, h⟩
      · obtain ⟨l', hmem, hl⟩ := ih h
        exact ⟨l', List.mem_cons_of_mem _ hmem, hl⟩

theorem cuLoop_mem (env : Env) (s : ElfInstance) (relocation : Nat) (cus : List CompileUnit)
    (e : LineEvent) (h : e ∈ cuLoop env s relocation cus) :
    ∃ cu ∈ cus, ∃ rows dirs l, cu.lines = some rows ∧ cu.src_dirs = some dirs ∧ some l ∈ rows
      ∧ rowEvent env s relocation (dirs.head?.getD none) l = some e := by
  induction cus with
  | nil => simp [cuLoop] at h
  | cons cu rest ih =>
    have lift : (∃ cu' ∈ rest, ∃ rows dirs l, cu'.lines = some rows ∧ cu'.src_dirs = some dirs
        ∧ some l ∈ rows ∧ rowEvent env s relocation (dirs.head?.getD none) l = some e) →
        ∃ cu' ∈ cu :: rest, ∃ rows dirs l, cu'.lines = some rows ∧ cu'.src_dirs = some dirs
        ∧ some l ∈ rows ∧ rowEvent env s relocation (dirs.head?.getD none) l = some e := by
      rintro ⟨cu', hmem, hrest⟩
      exact ⟨cu', List.mem_cons_of_mem _ hmem, hrest⟩
    simp only [cuLoop] at h
    split at h
    · simp at h
    · split at h
      · exact lift (ih h)
      · next rows hrows =>
        split at h
        · exact lift (ih h)
        · split at h
          · exact lift (ih h)
          · next dirs hdirs =>
            split at h
            · exact lift (ih h)
            · have hrow : e ∈ (lineLoop env s relocation (dirs.head?.getD none) rows).1
                  ∨ e ∈ cuLoop env s relocation rest := by
                split at h
                · exact Or.inl h
                · exact List.mem_append.mp h
              rcases hrow with hrow | hrow
              · obtain ⟨l, hl, hev⟩ := lineLoop_mem env s relocation _ rows e hrow
                exact ⟨cu, List.mem_cons_self _ _, rows, dirs, l, hrows, hdirs, hl, hev⟩
              · exact lift (ih hrow)

theorem parseOneDwarf_mem (env : Env) (s : ElfInstance) (relocation : Nat) (d : DwarfOut)
    (e : LineEvent) (h : parseOneDwarf env s relocation = .ok d) (he : e ∈ d.lines) :
    ∃ dir l, rowEvent env s relocation dir l = some e := by
  unfold parseOneDwarf at h
  split at h
  · cases h; simp at he
  · split at h
    · cases h
    · dsimp only at h
      split at h
      · cases h; simp at he
      · cases h
        obtain ⟨_, _, _, dirs, l, _, _, _, hev⟩ := cuLoop_mem env s relocation _ e he
        exact ⟨_, l, hev⟩

theorem unshift_addr (a relocation : Nat) (ha : a < U64) :
    ((a + relocation) % U64 + U64 - relocation % U64) % U64 = a := by
  have h1 := Nat.mod_lt relocation U64_pos
  have h2 : (a + relocation) % U64 = (a + relocation % U64) % U64 := by
    rw [Nat.add_mod, Nat.mod_eq_of_lt ha]
  rw [h2]
  by_cases hlt : a + relocation % U64 < U64
  · rw [Nat.mod_eq_of_lt hlt]
    have : a + relocation % U64 + U64 - relocation % U64 = a + U64 := by omega
    rw [this, Nat.add_mod_right, Nat.mod_eq_of_lt ha]
  · have hge : U64 ≤ a + relocation % U64 := Nat.le_of_not_lt hlt
    have h3 : (a + relocation % U64) % U64 = a + relocation % U64 - U64 := by
      rw [Nat.mod_eq_sub_mod hge]
      exact Nat.mod_eq_of_lt (by omega)
    rw [h3]
    have : a + relocation % U64 - U64 + U64 - relocation % U64 = a := by omega
    rw [this, Nat.mod_eq_of_lt ha]

/-- C1 (amended): when the scan goes through `parseOneDwarf` (coverage-graph mode off,
or no graph file queued), every line event sent by `doParse(relocation)` comes from a
line-table address `addr` that lies within some element `seg` of `m_executableSegments`,
and carries `adjustAddressBySegment(addr) + relocation` in unsigned 64-bit arithmetic;
when every Current Segment has its virtual base equal to its physical base (as the
segments built from the section table have), the event address minus the relocation lies
within that same executable segment. -/
theorem doParse_line_address_from_executable_segment (env : Env) (s : ElfInstance)
    (relocation : Nat) (r : ParseOut) (h : doParse env s relocation = .ok r)
    (hdwarf : env.gcov = 0 ∨ r.st.m_gcnoFiles = []) :
    ∀ e ∈ r.lines, ∃ addr seg, seg ∈ r.st.m_executableSegments
      ∧ seg.addressIsWithinSegment addr = true
      ∧ e.addr = (adjustAddressBySegment r.st addr + relocation) % U64
      ∧ ((∀ c ∈ r.st.m_curSegments, c.vaddr = c.paddr) →
          seg.addressIsWithinSegment ((e.addr + U64 - relocation % U64) % U64) = true) := by
  intro e he
  unfold doParse at h
  split at h
  · cases h; simp at he
  · split at h
    · cases h
    · next el hel =>
      split at h
      · next hg =>
        cases h
        simp only [Bool.and_eq_true, decide_eq_true_eq, Bool.not_eq_true',
          List.isEmpty_eq_false] at hg
        rcases hdwarf with h0 | h0
        · exact absurd h0 hg.1
        · exact absurd h0 hg.2
      · split at h
        · cases h
        · next d hd =>
          cases h
          obtain ⟨dir, l, hev⟩ := parseOneDwarf_mem env el.st relocation d e hd he
          obtain ⟨_, _, hvalid, hE⟩ := rowEvent_some env el.st relocation dir l e hev
          obtain ⟨seg, hseg, hw⟩ := addressIsValidIn_within env _ _ _ _ hvalid
          refine ⟨l.addr, seg, hseg, hw, by rw [hE], ?_⟩
          intro hsame
          have hid : adjustAddressBySegment el.st l.addr = l.addr :=
            adjustAddressIn_same_base _ _ hsame
          rw [hE]
          simp only [hid]
          rw [unshift_addr l.addr relocation (within_bounds seg l.addr hw).2]
          exact hw

/-- C1 at the scan of the position-independent executable `/bin/pie` with relocation
`0x555555554000`: the scan (coverage-graph mode off) sends one line event, and its
address minus the relocation lies within the executable segment. -/
theorem doParse_line_address_from_executable_segment_witness :
    doParse worldEnv (registered ElfInstance.new "/bin/pie".toList none) 0x555555554000
        = .ok pieScan
      ∧ (worldEnv.gcov = 0 ∨ pieScan.st.m_gcnoFiles = [])
      ∧ ∀ e ∈ pieScan.lines, ∃ addr seg, seg ∈ pieScan.st.m_executableSegments
          ∧ seg.addressIsWithinSegment addr = true
          ∧ e.addr = (adjustAddressBySegment pieScan.st addr + 0x555555554000) % U64
          ∧ ((∀ c ∈ pieScan.st.m_curSegments, c.vaddr = c.paddr) →
              seg.addressIsWithinSegment ((e.addr + U64 - 0x555555554000 % U64) % U64)
                = true) :=
  ⟨by decide, Or.inl rfl,
    doParse_line_address_from_executable_segment worldEnv
      (registered ElfInstance.new "/bin/pie".toList none) 0x555555554000 pieScan
      (by decide) (Or.inl rfl)⟩

/-- C1 fails as stated.  (a) The shared object `/lib/libfoo.so`, registered with a
host-supplied segment of physical base `0x1000` and virtual base `0x7f0000001000`, is
scanned with relocation 0: the one line event carries `0x7f0000001020`, and the only
executable segment is `[0x1000, 0x1100)`.  (b) In coverage-graph mode the scan of
`/bin/app` sends a line event with the generated address `65536`, and the only
executable segment is `[0x401000, 0x401100)`. -/
theorem line_address_outside_executable_segments :
    (linesOf (doParse worldEnv libState 0) = [⟨"/src/foo.c".toList, 3, 0x7f0000001020⟩]
      ∧ (stateAfter libState (doParse worldEnv libState 0)).m_executableSegments
          = [⟨some 64, 0x1000, 0x1000, 0x100⟩]
      ∧ (Segment.mk (some 64) 0x1000 0x1000 0x100).addressIsWithinSegment
          ((0x7f0000001020 + U64 - 0 % U64) % U64) = false)
    ∧ (linesOf (doParse gcovEnv gcovState 0) = [⟨"/src/a.c".toList, 3, 65536⟩]
      ∧ (stateAfter gcovState (doParse gcovEnv gcovState 0)).m_executableSegments
          = [⟨some 64, 0x401000, 0x401000, 0x100⟩]
      ∧ (Segment.mk (some 64) 0x401000 0x401000 0x100).addressIsWithinSegment
          ((65536 + U64 - 0 % U64) % U64) = false) := by
  refine ⟨⟨?_, ?_, ?_⟩, ?_, ?_, ?_⟩ <;> decide

/-! ## The search for separate debug info -/

theorem open_debuglink_file_attempts (env : Env) (s : ElfInstance) :
    (open_debuglink_file env s).2
      = if env.open_ok (env.dirname s.m_filename ++ ['/'] ++ s.m_debuglink) = true
        then [env.dirname s.m_filename ++ ['/'] ++ s.m_debuglink]
        else if env.open_ok (env.dirname s.m_filename ++ ['/'] ++ ".debug/".toList
            ++ s.m_debuglink) = true
        then [env.dirname s.m_filename ++ ['/'] ++ s.m_debuglink,
          env.dirname s.m_filename ++ ['/'] ++ ".debug/".toList ++ s.m_debuglink]
        else
          match env.realpath (env.dirname s.m_filename ++ ['/']) with
          | some real_path =>
            [env.dirname s.m_filename ++ ['/'] ++ s.m_debuglink,
              env.dirname s.m_filename ++ ['/'] ++ ".debug/".toList ++ s.m_debuglink,
              "/usr/lib/debug".toList ++ real_path ++ ['/'] ++ s.m_debuglink]
          | none =>
            [env.dirname s.m_filename ++ ['/'] ++ s.m_debuglink,
              env.dirname s.m_filename ++ ['/'] ++ ".debug/".toList ++ s.m_debuglink] := by
  unfold open_debuglink_file
  dsimp only
  split
  · rfl
  · split
    · rfl
    · cases env.realpath (env.dirname s.m_filename ++ ['/']) <;> rfl

theorem debuglinkOpen_opens (env : Env) (s : ElfInstance) (d : DbgState)
    (hlink : s.m_debuglink ≠ []) :
    (debuglinkOpen env s d).opens
      = d.opens ++ (if d.dbg.isSome = true then [] else (open_debuglink_file env s).2) := by
  have hlen : decide (s.m_debuglink.length > 0) = true :=
    decide_eq_true (List.length_pos.mpr hlink)
  unfold debuglinkOpen
  cases hd : d.dbg with
  | some cus => simp
  | none =>
    simp only [Option.isNone_none, hlen, Bool.and_self, if_true, Option.isSome_none,
      Bool.false_eq_true, if_false]
    cases (open_debuglink_file env s).1 <;> rfl

theorem buildIdBlock_opens (env : Env) (s : ElfInstance) (hid : 2 ≤ s.m_buildId.length) :
    buildIdBlock env s ⟨none, [s.m_filename]⟩
      = .ok ⟨if env.open_ok (buildIdFile s.m_buildId) = true
              then env.dwarf_begin (buildIdFile s.m_buildId) else none,
            [s.m_filename, buildIdFile s.m_buildId]⟩ := by
  have hid0 : decide (s.m_buildId.length > 0) = true := decide_eq_true (by omega)
  have hid2 : ¬ s.m_buildId.length < 2 := by omega
  unfold buildIdBlock
  simp only [Option.isNone_none, hid0, Bool.and_self, if_true, hid2, if_false]
  split <;> rfl

theorem parseOneDwarf_opens (env : Env) (s : ElfInstance) (relocation : Nat) (d1 : DbgState)
    (hopen : env.open_ok s.m_filename = true)
    (hb : buildIdBlock env s ⟨env.dwarf_begin s.m_filename, [s.m_filename]⟩ = .ok d1) :
    ∃ d, parseOneDwarf env s relocation = .ok d ∧ d.opens = (debuglinkOpen env s d1).opens := by
  unfold parseOneDwarf
  simp only [hopen, Bool.not_true, Bool.false_eq_true, if_false, hb]
  cases (debuglinkOpen env s d1).dbg with
  | none => exact ⟨_, rfl, rfl⟩
  | some cus => exact ⟨_, rfl, rfl⟩

/-- C7 (amended): for a parser state with a build-identifier of at least two hex digits
and a non-empty debug-link name, whose binary opens but holds no usable inline debug
info, the paths `parseOneDwarf` hands to `::open` are: the binary; then
`/usr/lib/debug/.build-id/<first two digits>/<remaining digits>.debug`; then, unless that
file opened and holds debug info, the debug-link candidates in order, stopping at the
first that opens: `<dir>/<link>`, `<dir>/.debug/<link>`, and, only when `realpath` of
`<dir>/` succeeds, `/usr/lib/debug<resolved dir>/<link>`; when `realpath` fails the search
ends after the second candidate. -/
theorem parseOneDwarf_open_order (env : Env) (s : ElfInstance) (relocation : Nat)
    (hopen : env.open_ok s.m_filename = true)
    (hnodbg : env.dwarf_begin s.m_filename = none)
    (hid : 2 ≤ s.m_buildId.length)
    (hlink : s.m_debuglink ≠ []) :
    ∃ d, parseOneDwarf env s relocation = .ok d
      ∧ d.opens = s.m_filename
          :: ("/usr/lib/debug/.build-id/".toList ++ s.m_buildId.take 2 ++ ['/']
                ++ s.m_buildId.drop 2 ++ ".debug".toList)
          :: (if env.open_ok ("/usr/lib/debug/.build-id/".toList ++ s.m_buildId.take 2 ++ ['/']
                  ++ s.m_buildId.drop 2 ++ ".debug".toList) = true
                ∧ (env.dwarf_begin ("/usr/lib/debug/.build-id/".toList ++ s.m_buildId.take 2
                    ++ ['/'] ++ s.m_buildId.drop 2 ++ ".debug".toList)).isSome = true
              then []
              else if env.open_ok (env.dirname s.m_filename ++ ['/'] ++ s.m_debuglink) = true
              then [env.dirname s.m_filename ++ ['/'] ++ s.m_debuglink]
              else if env.open_ok (env.dirname s.m_filename ++ ['/'] ++ ".debug/".toList
                  ++ s.m_debuglink) = true
              then [env.dirname s.m_filename ++ ['/'] ++ s.m_debuglink,
                env.dirname s.m_filename ++ ['/'] ++ ".debug/".toList ++ s.m_debuglink]
              else
                match env.realpath (env.dirname s.m_filename ++ ['/']) with
                | some real_path =>
                  [env.dirname s.m_filename ++ ['/'] ++ s.m_debuglink,
                    env.dirname s.m_filename ++ ['/'] ++ ".debug/".toList ++ s.m_debuglink,
                    "/usr/lib/debug".toList ++ real_path ++ ['/'] ++ s.m_debuglink]
                | none =>
                  [env.dirname s.m_filename ++ ['/'] ++ s.m_debuglink,
                    env.dirname s.m_filename ++ ['/'] ++ ".debug/".toList ++ s.m_debuglink]) := by
  obtain ⟨d, hd, hopens⟩ := parseOneDwarf_opens env s relocation _ hopen
    (by rw [hnodbg]; exact buildIdBlock_opens env s hid)
  refine ⟨d, hd, ?_⟩
  rw [hopens, debuglinkOpen_opens env s _ hlink, open_debuglink_file_attempts]
  simp only [buildIdFile, List.cons_append, List.nil_append, List.cons.injEq, true_and]
  cases hB : env.open_ok ("/usr/lib/debug/.build-id/".toList ++ s.m_buildId.take 2 ++ ['/']
      ++ s.m_buildId.drop 2 ++ ".debug".toList)
  · simp
  · cases hD : env.dwarf_begin ("/usr/lib/debug/.build-id/".toList ++ s.m_buildId.take 2
        ++ ['/'] ++ s.m_buildId.drop 2 ++ ".debug".toList) <;> simp

/-- C7 at the stripped executable `/opt/app/bin/tool` (build-id `abcdef`, debug-link
`tool.debug`) when no debug file exists and the directory resolves: the build-id file and
then all three debug-link candidates are tried, in order. -/
theorem parseOneDwarf_open_order_witness :
    strippedEnvResolved.open_ok strippedState.m_filename = true
      ∧ strippedEnvResolved.dwarf_begin strippedState.m_filename = none
      ∧ 2 ≤ strippedState.m_buildId.length
      ∧ strippedState.m_debuglink ≠ []
      ∧ ∃ d, parseOneDwarf strippedEnvResolved strippedState 0 = .ok d
          ∧ d.opens = ["/opt/app/bin/tool".toList,
              "/usr/lib/debug/.build-id/ab/cdef.debug".toList,
              "/opt/app/bin/tool.debug".toList,
              "/opt/app/bin/.debug/tool.debug".toList,
              "/usr/lib/debug/opt/app/bin/tool.debug".toList] := by
  refine ⟨by decide, by decide, by decide, by decide, ?_⟩
  obtain ⟨d, hd, ho⟩ :=
    parseOneDwarf_open_order strippedEnvResolved strippedState 0 (by decide) (by decide)
      (by decide) (by decide)
  exact ⟨d, hd, by rw [ho]; decide⟩

/-- C7 fails as stated: for the stripped executable `/opt/app/bin/tool` (build-id
`abcdef`, debug-link `tool.debug`, no inline debug info), when no debug file can be opened
and `realpath` of the directory of the binary fails, the search ends after two debug-link
candidates; the third candidate is never handed to `::open`. -/
theorem debuglink_search_stops_after_two_candidates :
    strippedState.m_buildId = "abcdef".toList
      ∧ strippedState.m_debuglink = "tool.debug".toList
      ∧ strippedEnv.dwarf_begin strippedState.m_filename = none
      ∧ strippedEnv.realpath (strippedEnv.dirname strippedState.m_filename ++ ['/']) = none
      ∧ parseOneDwarf strippedEnv strippedState 0
        = .ok ⟨false, [], ["/opt/app/bin/tool".toList,
            "/usr/lib/debug/.build-id/ab/cdef.debug".toList,
            "/opt/app/bin/tool.debug".toList,
            "/opt/app/bin/.debug/tool.debug".toList]⟩ := by
  refine ⟨?_, ?_, ?_, ?_, ?_⟩ <;> decide


/-! ## Source paths of line events -/

theorem strFind_some (hay needle : Str) (k : Nat) (h : strFind hay needle = some k) :
    ∃ pre post, hay = pre ++ needle ++ post ∧ pre.length = k
      ∧ ∀ pre' post', hay = pre' ++ needle ++ post' → k ≤ pre'.length := by
  induction hay generalizing k with
  | nil =>
    simp only [strFind] at h
    split at h
    · next hn =>
      cases h
      exact ⟨[], [], by simp [hn], rfl, fun _ _ _ => Nat.zero_le _⟩
    · cases h
  | cons c hay ih =>
    simp only [strFind] at h
    split at h
    · next hp =>
      cases h
      obtain ⟨t, ht⟩ := List.isPrefixOf_iff_prefix.mp hp
      exact ⟨[], t, by simp [ht], rfl, fun _ _ _ => Nat.zero_le _⟩
    · next hp =>
      cases hk : strFind hay needle with
      | none => simp [hk] at h
      | some k' =>
        simp only [hk, Option.map_some', Option.some.injEq] at h
        obtain ⟨pre, post, hEq, hlen, hmin⟩ := ih k' hk
        refine ⟨c :: pre, post, by simp [hEq], by simp [hlen, h.symm], ?_⟩
        intro pre' post' hE
        cases pre' with
        | nil =>
          exfalso
          apply hp
          exact List.isPrefixOf_iff_prefix.mpr ⟨post', by simpa using hE.symm⟩
        | cons a pre'' =>
          simp only [List.cons_append, List.cons.injEq] at hE
          have := hmin pre'' post' hE.2
          simp only [List.length_cons]
          omega

theorem strFind_of_infix (hay needle : Str) (h : needle <:+: hay) :
    ∃ k, strFind hay needle = some k := by
  induction hay with
  | nil =>
    have : needle = [] := List.eq_nil_of_infix_nil h
    exact ⟨0, by simp [strFind, this]⟩
  | cons c hay ih =>
    simp only [strFind]
    split
    · exact ⟨0, rfl⟩
    · next hp =>
      rcases List.infix_cons_iff.mp h with h1 | h1
      · exact absurd (List.isPrefixOf_iff_prefix.mpr h1) hp
      · obtain ⟨k, hk⟩ := ih h1
        exact ⟨k + 1, by simp [hk]⟩

theorem strReplace_split (pre needle post r : Str) :
    strReplace (pre ++ needle ++ post) pre.length needle.length r = pre ++ r ++ post := by
  unfold strReplace
  have h1 : (pre ++ needle ++ post).take pre.length = pre := by
    rw [List.append_assoc, List.take_left']
    rfl
  have h2 : (pre ++ needle ++ post).drop (pre.length + needle.length) = post := by
    rw [← List.length_append, List.drop_left']
    rfl
  rw [h1, h2]

/-- C8: with a path-prefix remap configured (original and new root both non-empty) and
a canonicalization `get_real_path` that returns a non-empty path for a non-empty one, a
line event sent for a row whose resolved path contains the original root carries as file
the canonicalization of the resolved path with the first occurrence of the original root
replaced by the new root. -/
theorem remapped_file_of_event (env : Env) (s : ElfInstance) (relocation : Nat)
    (dir : Option Str) (l : DwarfLine) (e : LineEvent)
    (horig : s.m_origRoot ≠ []) (hnew : s.m_newRoot ≠ [])
    (hcanon : ∀ p : Str, p ≠ [] → env.get_real_path p ≠ [])
    (hev : rowEvent env s relocation dir l = some e)
    (hsub : s.m_origRoot <:+: resolvedPath env dir l.line_source) :
    ∃ pre post, resolvedPath env dir l.line_source = pre ++ s.m_origRoot ++ post
      ∧ (∀ pre' post', resolvedPath env dir l.line_source = pre' ++ s.m_origRoot ++ post' →
          pre.length ≤ pre'.length)
      ∧ e.file = env.get_real_path (pre ++ s.m_newRoot ++ post) := by
  obtain ⟨_, _, _, hE⟩ := rowEvent_some env s relocation dir l e hev
  obtain ⟨k, hk⟩ := strFind_of_infix _ _ hsub
  obtain ⟨pre, post, hsplit, hlen, hmin⟩ := strFind_some _ _ k hk
  refine ⟨pre, post, hsplit, fun pre' post' h' => hlen ▸ hmin pre' post' h', ?_⟩
  have hne : pre ++ s.m_newRoot ++ post ≠ [] := by
    intro h0
    have := congrArg List.length h0
    simp only [List.length_append, List.length_nil] at this
    have := List.length_pos.mpr hnew
    omega
  have hrp := hcanon _ hne
  have ho : 0 < s.m_origRoot.length := List.length_pos.mpr horig
  have hn : 0 < s.m_newRoot.length := List.length_pos.mpr hnew
  rw [hE]
  simp only [resolveFile, gt_iff_lt, ho, hn, and_self, if_true, hk]
  rw [← hlen, hsplit, strReplace_split]
  simp only [ne_eq, hrp, not_false_eq_true, if_true]

/-- C8 at the example of the specification: original root `/build/src`, new root
`/home/user/src`, recorded path `/build/src/foo.c`, canonicalization the identity; the
line event carries the file `/home/user/src/foo.c`. -/
theorem remapped_file_of_event_witness :
    remapState.m_origRoot = "/build/src".toList
      ∧ remapState.m_newRoot = "/home/user/src".toList
      ∧ linesOf (doParse remapEnv (addFile remapEnv ElfInstance.new "/bin/app".toList none).st 0)
          = [⟨"/home/user/src/foo.c".toList, 12, 0x401010⟩]
      ∧ rowEvent remapEnv remapState 0 (some "/src".toList)
          ⟨12, "/build/src/foo.c".toList, true, 0x401010⟩
          = some ⟨"/home/user/src/foo.c".toList, 12, 0x401010⟩
      ∧ ∃ pre post,
          resolvedPath remapEnv (some "/src".toList) "/build/src/foo.c".toList
            = pre ++ remapState.m_origRoot ++ post
          ∧ (∀ pre' post', resolvedPath remapEnv (some "/src".toList) "/build/src/foo.c".toList
              = pre' ++ remapState.m_origRoot ++ post' → pre.length ≤ pre'.length)
          ∧ "/home/user/src/foo.c".toList
            = remapEnv.get_real_path (pre ++ remapState.m_newRoot ++ post) :=
  ⟨by decide, by decide, by decide, by decide,
    remapped_file_of_event remapEnv remapState 0 (some "/src".toList)
      ⟨12, "/build/src/foo.c".toList, true, 0x401010⟩
      ⟨"/home/user/src/foo.c".toList, 12, 0x401010⟩
      (by decide) (by decide) (fun _ hp => hp) (by decide)
      ⟨[], "/foo.c".toList, by decide⟩⟩

/-- C9 (amended): with no path-prefix remap configured (original or new root empty), a
line event sent for a row whose recorded source path starts with a slash carries as file
the canonicalization `get_real_path` of the recorded path, or the recorded path itself
when that canonicalization is empty; the compilation directory plays no part.  When the
canonicalization is the identity on the recorded path, the file is the recorded path. -/
theorem absolute_file_without_remap (env : Env) (s : ElfInstance) (relocation : Nat)
    (dir : Option Str) (l : DwarfLine) (e : LineEvent)
    (hno : s.m_origRoot = [] ∨ s.m_newRoot = [])
    (habs : l.line_source.head? = some '/')
    (hev : rowEvent env s relocation dir l = some e) :
    e.file = (if env.get_real_path l.line_source = [] then l.line_source
        else env.get_real_path l.line_source)
      ∧ (env.get_real_path l.line_source = l.line_source → e.file = l.line_source) := by
  obtain ⟨_, _, _, hE⟩ := rowEvent_some env s relocation dir l e hev
  have hcfg : ¬ (s.m_origRoot.length > 0 ∧ s.m_newRoot.length > 0) := by
    rintro ⟨h1, h2⟩
    rcases hno with h | h
    · rw [h] at h1; exact absurd h1 (by simp)
    · rw [h] at h2; exact absurd h2 (by simp)
  have hfile : e.file = (if env.get_real_path l.line_source = [] then l.line_source
      else env.get_real_path l.line_source) := by
    rw [hE]
    simp only [resolveFile, resolvedPath, habs, ne_eq, not_true_eq_false, if_false, hcfg]
    split <;> simp_all
  refine ⟨hfile, fun hid => ?_⟩
  rw [hfile, hid]
  split <;> rfl

/-- C9 at the row of `/bin/app` in the example file system, where canonicalization is
the identity: the file of the line event is the recorded path `/src/app.c`. -/
theorem absolute_file_without_remap_witness :
    (appState.m_origRoot = [] ∨ appState.m_newRoot = [])
      ∧ ("/src/app.c".toList).head? = some '/'
      ∧ rowEvent worldEnv appState 0 (some "/src".toList) ⟨5, "/src/app.c".toList, true, 0x401010⟩
          = some ⟨"/src/app.c".toList, 5, 0x401010⟩
      ∧ ("/src/app.c".toList
            = (if worldEnv.get_real_path "/src/app.c".toList = [] then "/src/app.c".toList
                else worldEnv.get_real_path "/src/app.c".toList)
          ∧ (worldEnv.get_real_path "/src/app.c".toList = "/src/app.c".toList →
              "/src/app.c".toList = "/src/app.c".toList)) :=
  ⟨by decide, by decide, by decide,
    absolute_file_without_remap worldEnv appState 0 (some "/src".toList)
      ⟨5, "/src/app.c".toList, true, 0x401010⟩ ⟨"/src/app.c".toList, 5, 0x401010⟩
      (by decide) (by decide) (by decide)⟩

/-- C9 fails as stated: no remap is configured and the line table of `/bin/app` records
the absolute path `/src/./app.c`, which canonicalization resolves to `/src/app.c`; the
line event carries `/src/app.c`, not the recorded path. -/
theorem absolute_path_is_canonicalized :
    (addFile dotPathEnv ElfInstance.new "/bin/app".toList none).st.m_origRoot = []
      ∧ (addFile dotPathEnv ElfInstance.new "/bin/app".toList none).st.m_newRoot = []
      ∧ dotPathEnv.dwarf_begin "/bin/app".toList
          = some [unitOf [⟨5, "/src/./app.c".toList, true, 0x401010⟩]]
      ∧ dotPathEnv.get_real_path "/src/./app.c".toList = "/src/app.c".toList
      ∧ linesOf (doParse dotPathEnv (addFile dotPathEnv ElfInstance.new "/bin/app".toList none).st 0)
          = [⟨"/src/app.c".toList, 5, 0x401010⟩] := by
  refine ⟨?_, ?_, ?_, ?_, ?_⟩ <;> decide

/-! ## Further properties of the scan -/

theorem scanLoop_in_bounds (buf : Str) (n bound : Nat) (hb : bound + 5 = n) (p : Str) :
    ∀ (i : Nat) (r : ScanResult), i + p.length = n → r.fault = none →
      (∀ k ∈ r.compared, k + 5 < n) →
      (scanLoop buf bound i p r).fault = none
        ∧ ∀ k ∈ (scanLoop buf bound i p r).compared, k + 5 < n := by
  induction p with
  | nil =>
    intro i r hi hf hc
    simp only [scanLoop]
    split
    · simp only [List.length_nil] at hi; omega
    · exact ⟨hf, hc⟩
  | cons c p ih =>
    intro i r hi hf hc
    simp only [List.length_cons] at hi
    simp only [scanLoop]
    split
    · next hlt =>
      split
      · next hshort => simp only [List.length_cons] at hshort; omega
      · have hc' : ∀ k ∈ r.compared ++ [i], k + 5 < n := by
          intro k hk
          rcases List.mem_append.mp hk with hk | hk
          · exact hc k hk
          · simp only [List.mem_singleton] at hk; omega
        split
        · split
          · exact ih (i + 1) _ (by omega) hf hc'
          · exact ih (i + 1) _ (by omega) hf hc'
        · exact ih (i + 1) _ (by omega) hf hc'
    · exact ⟨hf, hc⟩

/-- X1: on a `.rodata` buffer of at least 5 bytes (and below `2^64`) the gcda scan never
compares past the end of the buffer: every offset `k` it runs `memcmp` at has
`k + 5 < buf.length`, and no out-of-bounds read is recorded. -/
theorem gcdaScan_in_bounds (buf : Str) (h5 : 5 ≤ buf.length) (hsz : buf.length < U64) :
    (gcdaScan buf).fault = none ∧ ∀ k ∈ (gcdaScan buf).compared, k + 5 < buf.length := by
  have hb : scanBound buf.length + 5 = buf.length := by
    unfold scanBound
    rw [Nat.mod_eq_of_lt hsz]
    have : buf.length + U64 - 5 = buf.length - 5 + U64 := by omega
    rw [this, Nat.add_mod_right, Nat.mod_eq_of_lt (by omega)]
    omega
  exact scanLoop_in_bounds buf buf.length _ hb buf 0 ⟨[], [], none⟩ (by simp) rfl (by simp)

/-- X1 at the 14-byte `.rodata` buffer `x\0/t/a.gcda\0zz`. -/
theorem gcdaScan_in_bounds_witness :
    5 ≤ ([Char.ofNat 120, NUL] ++ "/t/a.gcda".toList ++ [NUL, 'z', 'z']).length
      ∧ ([Char.ofNat 120, NUL] ++ "/t/a.gcda".toList ++ [NUL, 'z', 'z']).length < U64
      ∧ (gcdaScan ([Char.ofNat 120, NUL] ++ "/t/a.gcda".toList ++ [NUL, 'z', 'z'])).files
          = ["/t/a.gcda".toList]
      ∧ ((gcdaScan ([Char.ofNat 120, NUL] ++ "/t/a.gcda".toList ++ [NUL, 'z', 'z'])).fault
            = none
          ∧ ∀ k ∈ (gcdaScan ([Char.ofNat 120, NUL] ++ "/t/a.gcda".toList
              ++ [NUL, 'z', 'z'])).compared,
            k + 5 < ([Char.ofNat 120, NUL] ++ "/t/a.gcda".toList ++ [NUL, 'z', 'z']).length) :=
  ⟨by decide, by decide, by decide,
    gcdaScan_in_bounds ([Char.ofNat 120, NUL] ++ "/t/a.gcda".toList ++ [NUL, 'z', 'z'])
      (by decide) (by decide)⟩

theorem adjustAddressIn_outside (segs : List Segment) (a : Nat)
    (h : ∀ seg ∈ segs, seg.addressIsWithinSegment a = false) : adjustAddressIn segs a = a := by
  induction segs with
  | nil => rfl
  | cons seg rest ih =>
    simp only [adjustAddressIn, h seg (List.mem_cons_self _ _), Bool.false_eq_true, if_false]
    exact ih (fun c hc => h c (List.mem_cons_of_mem _ hc))

/-- X2: translation through the Current Segments leaves an address outside every
Current Segment unchanged, so translating it twice is the same as translating it once. -/
theorem adjustAddressBySegment_outside (s : ElfInstance) (a : Nat)
    (h : ∀ seg ∈ s.m_curSegments, seg.addressIsWithinSegment a = false) :
    adjustAddressBySegment s a = a
      ∧ adjustAddressBySegment s (adjustAddressBySegment s a) = adjustAddressBySegment s a := by
  have h1 : adjustAddressBySegment s a = a := adjustAddressIn_outside _ _ h
  exact ⟨h1, by rw [h1, h1]⟩

/-- X2 at the shared object with the host-supplied segment `[0x1000, 0x1100)` and the
address `0x2000`. -/
theorem adjustAddressBySegment_outside_witness :
    (∀ seg ∈ libState.m_curSegments, seg.addressIsWithinSegment 0x2000 = false)
      ∧ (adjustAddressBySegment libState 0x2000 = 0x2000
        ∧ adjustAddressBySegment libState (adjustAddressBySegment libState 0x2000)
          = adjustAddressBySegment libState 0x2000) :=
  ⟨by decide, adjustAddressBySegment_outside libState 0x2000 (by decide)⟩

/-- X3: the graph file name derived from a gcda name of at least two characters is the
name with its last two characters replaced by `no` (so `foo.gcda` gives `foo.gcno`), and
the derived name is queued in `m_gcnoFiles` exactly when its file exists. -/
theorem gcnoName_replaces_suffix (env : Env) (stem : Str) (a b : Char) :
    gcnoName (stem ++ [a, b]) = stem ++ ['n', 'o']
      ∧ gcnoName "foo.gcda".toList = "foo.gcno".toList
      ∧ gcnoFound env [stem ++ [a, b]]
        = if env.file_exists (stem ++ ['n', 'o']) = true then [stem ++ ['n', 'o']] else [] := by
  have hset : ∀ t : Str, ((t ++ [a, b]).set t.length 'n').set (t.length + 1) 'o'
      = t ++ ['n', 'o'] := by
    intro t
    induction t with
    | nil => rfl
    | cons c t ih => simp only [List.cons_append, List.length_cons, List.set_cons_succ, ih]
  have h : gcnoName (stem ++ [a, b]) = stem ++ ['n', 'o'] := by
    unfold gcnoName
    have hl : (stem ++ [a, b]).length = stem.length + 2 := by simp
    rw [hl]
    exact hset stem
  refine ⟨h, by decide, ?_⟩
  cases hf : env.file_exists (stem ++ ['n', 'o']) <;> simp [gcnoFound, h, hf]


/-! ## Rescanning with coverage-graph mode off -/

theorem gcdaBlock_frame (sec : Section) (d : Option Str) (a a1 : ElfScan)
    (h : gcdaBlock false sec d a = .ok a1) : a1 = a := by
  unfold gcdaBlock at h
  cases d with
  | none => cases h; rfl
  | some buf => simp only [Bool.false_and, Bool.false_eq_true, if_false] at h; cases h; rfl

theorem gcdaBlock_st (ds : Bool) (sec : Section) (d : Option Str) (a a1 : ElfScan)
    (h : gcdaBlock ds sec d a = .ok a1) : a1.st = a.st := by
  unfold gcdaBlock at h
  cases d with
  | none => cases h; rfl
  | some buf =>
    simp only at h
    split at h
    · split at h
      · cases h
      · cases h; rfl
    · cases h; rfl

theorem noteBlock_frame (sec : Section) (d : Option Str) (a a1 : ElfScan)
    (h : noteBlock sec d a = .ok a1) :
    a1.st.resetScan = a.st.resetScan ∧ a1.gcdaFiles = a.gcdaFiles := by
  unfold noteBlock at h
  cases d with
  | none => cases h; exact ⟨rfl, rfl⟩
  | some buf =>
    simp only at h
    split at h
    · split at h
      · cases h
      · cases h; exact ⟨rfl, rfl⟩
    · cases h; exact ⟨rfl, rfl⟩

theorem debuglinkBlock_frame (sec : Section) (d : Option Str) (a a1 : ElfScan)
    (h : debuglinkBlock sec d a = .ok a1) :
    a1.st.resetScan = a.st.resetScan ∧ a1.gcdaFiles = a.gcdaFiles := by
  unfold debuglinkBlock at h
  split at h
  · cases d with
    | none => cases h
    | some buf =>
      simp only at h
      split at h
      · cases h
      · cases h; exact ⟨rfl, rfl⟩
  · cases h; exact ⟨rfl, rfl⟩

theorem segmentBlock_frame (ss : Bool) (sec : Section) (a : ElfScan) :
    (segmentBlock ss sec a).st.resetScan = a.st.resetScan
      ∧ (segmentBlock ss sec a).gcdaFiles = a.gcdaFiles := by
  unfold segmentBlock
  split
  · exact ⟨rfl, rfl⟩
  · cases ss <;> exact ⟨rfl, rfl⟩

theorem sectionLoop_frame (ds ss : Bool) (secs : List Section) :
    ∀ (a a1 : ElfScan) (fl : Bool), sectionLoop ds ss secs a = .ok (fl, a1) →
      a1.st.resetScan = a.st.resetScan ∧ (ds = false → a1.gcdaFiles = a.gcdaFiles) := by
  induction secs with
  | nil =>
    intro a a1 fl h
    simp only [sectionLoop, Except.ok.injEq, Prod.mk.injEq] at h
    rw [h.2]; exact ⟨rfl, fun _ => rfl⟩
  | cons sec rest ih =>
    intro a a1 fl h
    simp only [sectionLoop] at h
    split at h
    · simp only [Except.ok.injEq, Prod.mk.injEq] at h
      rw [h.2]; exact ⟨rfl, fun _ => rfl⟩
    · next d _ =>
      split at h
      · cases h
      · next x1 h1 =>
        split at h
        · cases h
        · next x2 h2 =>
          split at h
          · cases h
          · next x3 h3 =>
            obtain ⟨e4, g4⟩ := ih _ _ _ h
            obtain ⟨e3, g3⟩ := segmentBlock_frame ss sec x3
            obtain ⟨e2, g2⟩ := debuglinkBlock_frame sec d x2 x3 h3
            obtain ⟨e1, g1⟩ := noteBlock_frame sec d x1 x2 h2
            have e0 := gcdaBlock_st ds sec d a x1 h1
            refine ⟨by rw [e4, e3, e2, e1, e0], fun hds => ?_⟩
            subst hds
            rw [g4 rfl, g3, g2, g1, gcdaBlock_frame sec d a x1 h1]

theorem parseOneElf_frame (env : Env) (s : ElfInstance) (e : ElfOut) (hg : env.gcov = 0)
    (h : parseOneElf env s = .ok e) : e.st.resetScan = s.resetScan := by
  unfold parseOneElf at h
  split at h
  · cases h; rfl
  · split at h
    · cases h; rfl
    · simp only [hg, ne_eq, not_true_eq_false, decide_False] at h
      split at h
      · cases h
      · next a ha =>
        cases h
        exact (sectionLoop_frame _ _ _ _ _ _ ha).1
      · next a ha =>
        cases h
        obtain ⟨e1, g1⟩ := sectionLoop_frame _ _ _ _ _ _ ha
        have hnil : a.gcdaFiles = [] := g1 rfl
        have : gcnoFound env a.gcdaFiles = [] := by rw [hnil]; rfl
        simp only [this, List.append_nil]
        exact e1

theorem addFile_st (env : Env) (s : ElfInstance) (f : Str) (data : Option (List PhdrSegment)) :
    (addFile env s f data).st = (checkFile env (addFilePrepared env s f data)).2 := by
  unfold addFile
  dsimp only
  split <;> rfl

theorem checkFile_resetScan (env : Env) (s : ElfInstance) :
    (checkFile env s).2.m_curSegments = s.m_curSegments
      ∧ (checkFile env s).2.m_executableSegments = s.m_executableSegments
      ∧ (checkFile env s).2.m_buildId = s.m_buildId
      ∧ (checkFile env s).2.m_debuglink = s.m_debuglink
      ∧ (checkFile env s).2.m_filename = s.m_filename
      ∧ (checkFile env s).2.m_initialized = s.m_initialized
      ∧ (checkFile env s).2.m_isMainFile = s.m_isMainFile
      ∧ (checkFile env s).2.m_gcnoFiles = s.m_gcnoFiles
      ∧ (checkFile env s).2.m_origRoot = s.m_origRoot
      ∧ (checkFile env s).2.m_newRoot = s.m_newRoot
      ∧ (checkFile env s).2.m_verifyAddresses = s.m_verifyAddresses := by
  unfold checkFile
  split
  · simp
  · split
    · simp
    · split
      · dsimp only
        split <;> split <;> (try split) <;> simp
      · simp

theorem checkFile_idem (env : Env) (s : ElfInstance) :
    checkFile env (checkFile env s).2 = checkFile env s := by
  unfold checkFile
  cases ho : env.open_ok s.m_filename
  · simp [ho]
  · cases he : env.elf_begin s.m_filename with
    | none => simp [ho, he]
    | some elf =>
      cases hm : s.m_isMainFile
      · simp [ho, he, hm]
      · cases hi : elf.ident with
        | none =>
          by_cases hc : s.m_checksum = 0
          · by_cases hc2 : elf.checksum s.m_elfIs32Bit = 0 <;> simp [ho, he, hm, hi, hc, hc2]
          · simp [ho, he, hm, hi, hc]
        | some raw =>
          by_cases hl : raw.length > EI_CLASS
          · by_cases hc : s.m_checksum = 0
            · by_cases hc2 : elf.checksum (decide (raw.getD EI_CLASS 0 = ELFCLASS32)) = 0 <;>
                simp [ho, he, hm, hi, hl, hc, hc2]
            · simp [ho, he, hm, hi, hl, hc]
          · by_cases hc : s.m_checksum = 0
            · by_cases hc2 : elf.checksum s.m_elfIs32Bit = 0 <;>
                simp [ho, he, hm, hi, hl, hc, hc2]
            · simp [ho, he, hm, hi, hl, hc]

theorem addFilePrepared_after_checkFile (env : Env) (s : ElfInstance) (f : Str)
    (data : Option (List PhdrSegment)) :
    addFilePrepared env (checkFile env (addFilePrepared env s f data)).2 f data
      = (checkFile env (addFilePrepared env s f data)).2 := by
  obtain ⟨h1, h2, h3, h4, h5, h6, -⟩ := checkFile_resetScan env (addFilePrepared env s f data)
  have hi : (addFilePrepared env s f data).m_initialized = true := by
    unfold addFilePrepared
    cases h : s.m_initialized <;> simp [h]
  have g1 : (addFilePrepared env s f data).m_curSegments = hostSegments data := rfl
  have g2 : (addFilePrepared env s f data).m_executableSegments = [] := rfl
  have g3 : (addFilePrepared env s f data).m_buildId = [] := rfl
  have g4 : (addFilePrepared env s f data).m_debuglink = [] := rfl
  have g5 : (addFilePrepared env s f data).m_filename = f := rfl
  rw [g1] at h1; rw [g2] at h2; rw [g3] at h3; rw [g4] at h4; rw [g5] at h5; rw [hi] at h6
  generalize (checkFile env (addFilePrepared env s f data)).2 = t at *
  cases t
  simp only at h1 h2 h3 h4 h5 h6
  subst h1 h2 h3 h4 h5 h6
  rfl

theorem addFilePrepared_after_scan (env : Env) (s1 e : ElfInstance) (f : Str)
    (data : Option (List PhdrSegment))
    (hp : addFilePrepared env s1 f data = s1) (hi : s1.m_initialized = true)
    (hf : e.resetScan = s1.resetScan) :
    addFilePrepared env (e.setMain false) f data = s1.setMain false := by
  have hie : e.m_initialized = true := by
    have := congrArg ElfInstance.m_initialized hf
    simpa [ElfInstance.resetScan, hi] using this
  cases s1
  cases e
  simp only [ElfInstance.resetScan, ElfInstance.mk.injEq, true_and] at hf
  simp only at hi hie
  subst hi hie
  simp only [addFilePrepared, Bool.not_true, Bool.false_eq_true, if_false,
    ElfInstance.mk.injEq] at hp
  simp only [addFilePrepared, ElfInstance.setMain, Bool.not_true, Bool.false_eq_true, if_false,
    ElfInstance.mk.injEq]
  obtain ⟨a1, a2, a3, a4, a5⟩ := hp
  obtain ⟨b1, b2, b3, b4, b5, b6, b7, b8, b9⟩ := hf
  simp_all

theorem gcdaBlock_setMain (b ds : Bool) (sec : Section) (d : Option Str) (a : ElfScan) :
    gcdaBlock ds sec d (a.setMain b) = (gcdaBlock ds sec d a).map (ElfScan.setMain b) := by
  unfold gcdaBlock
  cases d with
  | none => rfl
  | some buf =>
    simp only
    split
    · split <;> rfl
    · rfl

theorem noteBlock_setMain (b : Bool) (sec : Section) (d : Option Str) (a : ElfScan) :
    noteBlock sec d (a.setMain b) = (noteBlock sec d a).map (ElfScan.setMain b) := by
  unfold noteBlock
  cases d with
  | none => rfl
  | some buf =>
    simp only
    split
    · split <;> rfl
    · rfl

theorem debuglinkBlock_setMain (b : Bool) (sec : Section) (d : Option Str) (a : ElfScan) :
    debuglinkBlock sec d (a.setMain b) = (debuglinkBlock sec d a).map (ElfScan.setMain b) := by
  unfold debuglinkBlock
  split
  · cases d with
    | none => rfl
    | some buf =>
      simp only
      split <;> rfl
  · rfl

theorem segmentBlock_setMain (b ss : Bool) (sec : Section) (a : ElfScan) :
    segmentBlock ss sec (a.setMain b) = (segmentBlock ss sec a).setMain b := by
  unfold segmentBlock
  split
  · rfl
  · cases ss <;> rfl

theorem sectionLoop_setMain (b ds ss : Bool) (secs : List Section) :
    ∀ a : ElfScan, sectionLoop ds ss secs (a.setMain b)
      = (sectionLoop ds ss secs a).map (fun x => (x.1, x.2.setMain b)) := by
  induction secs with
  | nil => intro a; rfl
  | cons sec rest ih =>
    intro a
    simp only [sectionLoop]
    cases hd : sec.data with
    | none => rfl
    | some d =>
      simp only [gcdaBlock_setMain]
      cases h1 : gcdaBlock ds sec d a with
      | error f => rfl
      | ok a1 =>
        simp only [Except.map, noteBlock_setMain]
        cases h2 : noteBlock sec d a1 with
        | error f => rfl
        | ok a2 =>
          simp only [Except.map, debuglinkBlock_setMain]
          cases h3 : debuglinkBlock sec d a2 with
          | error f => rfl
          | ok a3 =>
            simp only [Except.map, segmentBlock_setMain]
            exact ih _

theorem parseOneElf_setMain (env : Env) (b : Bool) (s : ElfInstance) :
    parseOneElf env (s.setMain b) = (parseOneElf env s).map (ElfOut.setMain b) := by
  unfold parseOneElf
  have hf : (s.setMain b).m_filename = s.m_filename := rfl
  have hc : (s.setMain b).m_curSegments = s.m_curSegments := rfl
  have h32 : (s.setMain b).m_elfIs32Bit = s.m_elfIs32Bit := rfl
  rw [hf, hc, h32]
  cases env.elf_memory s.m_filename with
  | none => rfl
  | some elf =>
    simp only
    split
    · rfl
    · have := sectionLoop_setMain b (decide (env.gcov ≠ 0))
        (decide (s.m_curSegments.length = 0)) (elf.sections s.m_elfIs32Bit) ⟨s, [], []⟩
      have he : (⟨s.setMain b, [], []⟩ : ElfScan) = (⟨s, [], []⟩ : ElfScan).setMain b := rfl
      rw [he, this]
      cases sectionLoop (decide (env.gcov ≠ 0)) (decide (s.m_curSegments.length = 0))
          (elf.sections s.m_elfIs32Bit) ⟨s, [], []⟩ with
      | error f => rfl
      | ok x =>
        obtain ⟨fl, a⟩ := x
        cases fl <;> rfl

theorem lineLoop_setMain (env : Env) (b : Bool) (s : ElfInstance) (r : Nat) (d : Option Str)
    (rows : List (Option DwarfLine)) :
    lineLoop env (s.setMain b) r d rows = lineLoop env s r d rows := by
  induction rows with
  | nil => rfl
  | cons row rest ih =>
    cases row with
    | none => rfl
    | some l =>
      simp only [lineLoop, ih]
      rfl

theorem cuLoop_setMain (env : Env) (b : Bool) (s : ElfInstance) (r : Nat)
    (cus : List CompileUnit) : cuLoop env (s.setMain b) r cus = cuLoop env s r cus := by
  induction cus with
  | nil => rfl
  | cons cu rest ih => simp only [cuLoop, ih, lineLoop_setMain]

theorem parseOneDwarf_setMain (env : Env) (b : Bool) (s : ElfInstance) (r : Nat) :
    parseOneDwarf env (s.setMain b) r = parseOneDwarf env s r := by
  unfold parseOneDwarf
  simp only [cuLoop_setMain]
  rfl

theorem doParse_setMain (env : Env) (b : Bool) (s : ElfInstance) (r : Nat) :
    doParse env (s.setMain b) r = (doParse env s r).map (ParseOut.setMain b) := by
  unfold doParse
  have hf : (s.setMain b).m_filename = s.m_filename := rfl
  rw [hf, parseOneElf_setMain]
  split
  · rfl
  · cases parseOneElf env s with
    | error f => rfl
    | ok e =>
      simp only [Except.map]
      have hg : (ElfOut.setMain b e).st.m_gcnoFiles = e.st.m_gcnoFiles := rfl
      rw [hg]
      split
      · rfl
      · have hd : parseOneDwarf env (ElfOut.setMain b e).st r = parseOneDwarf env e.st r :=
          parseOneDwarf_setMain env b e.st r
        rw [hd]
        cases parseOneDwarf env e.st r <;> rfl

theorem checkFile_not_main (env : Env) (s : ElfInstance) (h : s.m_isMainFile = false) :
    (checkFile env s).2 = s := by
  unfold checkFile
  split
  · rfl
  · split
    · rfl
    · simp [h]

theorem doParse_frame (env : Env) (s : ElfInstance) (r0 : Nat) (r : ParseOut)
    (hg : env.gcov = 0) (h : doParse env s r0 = .ok r) :
    r.st.resetScan = s.resetScan ∧ (r.ret = false → r.st = s) := by
  unfold doParse at h
  split at h
  · cases h; exact ⟨rfl, fun _ => rfl⟩
  · split at h
    · cases h
    · next e he =>
      have hf := parseOneElf_frame env s e hg he
      split at h
      · cases h; exact ⟨hf, fun hr => absurd hr (by simp)⟩
      · split at h
        · cases h
        · cases h; exact ⟨hf, fun hr => absurd hr (by simp)⟩

/-- X4: with coverage-graph mode off, registering the same file with the same host data
and parsing it a second time on the same parser gives exactly what the first `parse()`
gave: the same return value, line events, file events and final state. -/
theorem rescan_without_gcov (env : Env) (s : ElfInstance) (f : Str)
    (data : Option (List PhdrSegment)) (r1 : ParseOut) (hg : env.gcov = 0)
    (h1 : parse env (addFile env s f data).st = .ok r1) :
    parse env (addFile env r1.st f data).st = .ok r1 := by
  have hs1 : (addFile env s f data).st = (checkFile env (addFilePrepared env s f data)).2 :=
    addFile_st env s f data
  have hinit : (addFile env s f data).st.m_initialized = true := by
    rw [hs1, (checkFile_resetScan env _).2.2.2.2.2.1]
    unfold addFilePrepared
    cases h : s.m_initialized <;> simp [h]
  have hp : addFilePrepared env (addFile env s f data).st f data = (addFile env s f data).st := by
    rw [hs1]; exact addFilePrepared_after_checkFile env s f data
  have hagain : (addFile env (addFile env s f data).st f data).st = (addFile env s f data).st := by
    rw [addFile_st, hp, hs1, checkFile_idem]
  generalize (addFile env s f data).st = s1 at *
  clear hs1
  unfold parse at h1
  split at h1
  · next hdef =>
    cases h1
    rw [hagain]
    unfold parse
    simp only [hdef, if_true]
  · next hdef =>
    split at h1
    · cases h1
    · next r hr =>
      obtain ⟨hframe, hfalse⟩ := doParse_frame env s1 0 r hg hr
      cases hret : r.ret
      · have hst : r.st = s1 := hfalse hret
        simp only [hret, Bool.not_false, if_true] at h1
        cases h1
        simp only [hst, hagain]
        unfold parse
        simp only [hdef, Bool.false_eq_true, if_false, hr, hret, Bool.not_false, if_true, hst]
      · simp only [hret, Bool.not_true, Bool.false_eq_true, if_false] at h1
        cases h1
        have hst2 : (addFile env (r.st.setMain false) f data).st = s1.setMain false := by
          rw [addFile_st, addFilePrepared_after_scan env s1 r.st f data hp hinit hframe]
          exact checkFile_not_main env _ rfl
        have hst3 : (addFile env { r.st with m_isMainFile := false } f data).st
            = s1.setMain false := hst2
        rw [hst3]
        unfold parse
        have hm : (s1.setMain false).m_isMainFile = false := rfl
        simp only [hm, Bool.false_and, Bool.false_eq_true, if_false, doParse_setMain, hr,
          Except.map]
        have hret2 : (ParseOut.setMain false r).ret = true := hret
        simp only [hret2, Bool.not_true, Bool.false_eq_true, if_false]
        rfl

/-- X4 at the fixed-address executable `/bin/app` of the example file system, registered
and parsed on a fresh parser and then registered and parsed again. -/
theorem rescan_without_gcov_witness :
    worldEnv.gcov = 0
      ∧ parse worldEnv (addFile worldEnv ElfInstance.new "/bin/app".toList none).st
          = .ok appScan
      ∧ appScan.lines = [⟨"/src/app.c".toList, 5, 0x401010⟩]
      ∧ parse worldEnv (addFile worldEnv appScan.st "/bin/app".toList none).st = .ok appScan :=
  ⟨rfl, by decide, rfl,
    rescan_without_gcov worldEnv ElfInstance.new "/bin/app".toList none appScan rfl
      (by decide)⟩


end Kcov
